import Mathlib

/-!
Shallow embedding of `src/convert_menu.py` (class `MenuConverter`): the
Python value model used by the YAML front matter, the price validator, the
front-matter parser, category extraction, the POS transformer and the
writers, together with proofs of the specification claims.

Machine integers do not occur; Python floats are modelled as rationals
(every Python float value is a dyadic rational, hence exactly
representable), and fallible code returns `Option` or `Except`.
-/

/-- Model of the Python values that can appear in a parsed YAML
front-matter field: strings, ints, floats (as rationals), booleans and
`None`. -/
inductive Value where
  | vstr : String → Value
  | vint : Int → Value
  | vfloat : Rat → Value
  | vbool : Bool → Value
  | vnone : Value
deriving DecidableEq

/-- Character for a decimal digit (`0 ≤ d ≤ 9`). -/
def digitChar (d : Nat) : Char := Char.ofNat (48 + d)

/-- Numeric value of a decimal digit character. -/
def charDigit (c : Char) : Nat := c.toNat - 48

/-- Decimal digit characters of a natural number, most significant digit
first: the rendering Python uses for naturals inside `str`. -/
def natDigits (n : Nat) : List Char :=
  if n = 0 then ['0'] else ((Nat.digits 10 n).map digitChar).reverse

/-- Value of a big-endian list of decimal digit characters. -/
def valNat (cs : List Char) : Nat :=
  cs.foldl (fun a c => 10 * a + charDigit c) 0

/-- Pad a digit string with leading zeros to length at least `k`. -/
def padZeros (k : Nat) (cs : List Char) : List Char :=
  List.replicate (k - cs.length) '0' ++ cs

/-- Python `str` of an int (also the int scalar form in YAML and JSON). -/
def intStr (n : Int) : String :=
  (if n < 0 then "-" else "") ++ ⟨natDigits n.natAbs⟩

/-- Smallest exponent `e ≤ q.den` such that `q * 10^e` is an integer, when
one exists. -/
def decExp (q : Rat) : Option Nat :=
  (List.range (q.den + 1)).find? (fun e => (q * 10 ^ e).den == 1)

/-- `q` is exactly representable as a finite decimal. Every value of an
actual Python float is a dyadic rational and satisfies this. -/
def IsDecimalB (q : Rat) : Bool := (q * 10 ^ q.den).den == 1

/-- Digits of `a / 10^e` with the decimal point inserted `e` places from
the right and at least one digit on either side of it. -/
def renderDecCore (a e : Nat) : List Char :=
  let s := padZeros (e + 1) (natDigits a)
  let k := s.length - e
  s.take k ++ '.' :: (if e = 0 then ['0'] else s.drop k)

/-- Decimal rendering of `m / 10^e` with an explicit decimal point and at
least one fractional digit, the way Python `repr`/`str` renders a float of
that value (`12.5`, `0.05`, `12.0`, `-3.75`). -/
def renderDec (m : Int) (e : Nat) : String :=
  (if m < 0 then "-" else "") ++ ⟨renderDecCore m.natAbs e⟩

/-- Decimal rendering of a rational. Faithful to Python float rendering on
decimal-representable rationals, which covers every value reachable in the
modelled program; on other rationals (unreachable) it falls back to "0".
Scientific notation for very large or small magnitudes is outside the
model. -/
def renderRat (q : Rat) : String :=
  match decExp q with
  | some e => renderDec (q * 10 ^ e).num e
  | none => "0"

/-- Python `str` of a front-matter value. -/
def pyStr : Value → String
  | .vstr s => s
  | .vint n => intStr n
  | .vfloat q => renderRat q
  | .vbool b => if b then "True" else "False"
  | .vnone => "None"

/-- Python truthiness of a front-matter value (`bool(v)`). -/
def pyTruthy : Value → Bool
  | .vstr s => !s.data.isEmpty
  | .vint n => n != 0
  | .vfloat q => q != 0
  | .vbool b => b
  | .vnone => false

/-- Line 142 of convert_menu.py: `str(price).replace(chr(36), '')` then
`.replace(',', '')` - dropping every dollar sign and comma; replacing a
single character by the empty string is a filter. -/
def stripPrice (s : String) : String :=
  ⟨s.data.filter (fun c => !(c == '$' || c == ','))⟩

/-- ASCII whitespace stripped by Python's `float` and `str.strip`. -/
def isPyWs (c : Char) : Bool :=
  c == ' ' || c == '\t' || c == '\n' || c == '\r' || c == '\x0b' || c == '\x0c'

/-- Strip leading and trailing whitespace from a character list. -/
def trimWs (cs : List Char) : List Char :=
  ((cs.dropWhile isPyWs).reverse.dropWhile isPyWs).reverse

/-- Split off the longest leading run of decimal digits. -/
def spanDigits (cs : List Char) : List Char × List Char :=
  (cs.takeWhile Char.isDigit, cs.dropWhile Char.isDigit)

/-- Exponent suffix of a Python float literal: optional sign then digits,
nothing trailing. -/
def pyExp (mant : Rat) (t : List Char) : Option Rat :=
  let se : Bool × List Char :=
    match t with
    | '-' :: u => (true, u)
    | '+' :: u => (false, u)
    | _ => (false, t)
  let ed := spanDigits se.2
  if ed.1.isEmpty || !ed.2.isEmpty then none
  else some (if se.1 then mant / 10 ^ valNat ed.1 else mant * 10 ^ valNat ed.1)

/-- Model of Python `float(s)` on decimal literals: optional surrounding
whitespace, optional sign, integer and/or fractional digits, optional
exponent. The `inf`/`nan` keywords and digit-group underscores CPython
additionally accepts are outside the model; no claim depends on them. -/
def pyFloat (s : String) : Option Rat :=
  let cs := trimWs s.data
  let signed : Bool × List Char :=
    match cs with
    | '-' :: t => (true, t)
    | '+' :: t => (false, t)
    | _ => (false, cs)
  let ipr := spanDigits signed.2
  let fpr : List Char × List Char :=
    match ipr.2 with
    | '.' :: t => spanDigits t
    | _ => ([], ipr.2)
  if ipr.1.isEmpty && fpr.1.isEmpty then none
  else
    let mant : Rat :=
      ((valNat ipr.1 : Rat) * 10 ^ fpr.1.length + (valNat fpr.1 : Rat)) /
        10 ^ fpr.1.length
    let base : Option Rat :=
      match fpr.2 with
      | [] => some mant
      | 'e' :: t => pyExp mant t
      | 'E' :: t => pyExp mant t
      | _ => none
    base.map (fun v => if signed.1 then -v else v)

/-- Validation failures, as distinguished by the two warnings the
validator logs. -/
inductive VErr where
  | missingField : String → VErr
  | invalidPrice : VErr
deriving DecidableEq

/-- `validate_menu_item` (convert_menu.py lines 131-148): the loop over
`required_fields = ['title', 'price']` rejects a field that is absent or
falsy ("missing required field"); then `float(str(price))` with dollar
signs and commas stripped must parse ("Invalid price format", the caught
`ValueError`). On success the parsed value is recorded as
`price_numeric`. -/
def validate_menu_item (title price : Option Value) : Except VErr Rat :=
  match title with
  | none => .error (.missingField "title")
  | some tv =>
    if !pyTruthy tv then .error (.missingField "title")
    else
      match price with
      | none => .error (.missingField "price")
      | some pv =>
        if !pyTruthy pv then .error (.missingField "price")
        else
          match pyFloat (stripPrice (pyStr pv)) with
          | some q => .ok q
          | none => .error .invalidPrice

/-- Index of the last dot in a character list, if any. -/
def rfindDot : List Char → Option Nat
  | [] => none
  | c :: cs =>
    match rfindDot cs with
    | some i => some (i + 1)
    | none => if c = '.' then some 0 else none

/-- CPython `PurePath.stem` as used for the slug on line 105: the file
name without its last suffix; the suffix is dropped only when the last dot
is neither the first nor the last character of the name. -/
def pyStem (name : String) : String :=
  match rfindDot name.data with
  | some i => if 0 < i ∧ i < name.data.length - 1 then ⟨name.data.take i⟩ else name
  | none => name

/-- `extract_category` (lines 123-129): the parts of the file path
relative to the content root are the directory segments followed by the
file name; with more than one part the category is the first part, else
"uncategorized". -/
def extract_category (relParts : List String) : String :=
  if relParts.length > 1 then relParts.headD "uncategorized" else "uncategorized"

/-- Python `content.split` on the newline character: the result is never
empty and keeps empty segments. -/
def splitLines : List Char → List (List Char)
  | [] => [[]]
  | c :: t =>
    if c = '\n' then [] :: splitLines t
    else
      match splitLines t with
      | h :: r => (c :: h) :: r
      | [] => [[c]]

/-- Join lines with newlines (Python `chr(10).join`). -/
def joinLines : List (List Char) → List Char
  | [] => []
  | [l] => l
  | l :: ls => l ++ '\n' :: joinLines ls

/-- A front-matter delimiter line per line 87: `line.startswith('---')`. -/
def isDelim (l : List Char) : Bool := "---".data.isPrefixOf l

/-- The front-matter extraction loop (lines 82-94): the lines strictly
between the first and second delimiter lines, and the index of the line
after the closing delimiter (`content_start`, which stays 0 when no
closing delimiter exists). -/
def collectFM : List (List Char) → Nat → Bool → List (List Char) × Nat
  | [], _, _ => ([], 0)
  | l :: ls, i, inFM =>
    if isDelim l then
      if inFM then ([], i + 1)
      else collectFM ls (i + 1) true
    else if inFM then
      let r := collectFM ls (i + 1) inFM
      (l :: r.1, r.2)
    else collectFM ls (i + 1) inFM

/-- The front-matter fields of a menu item that the pipeline reads. A
parsed YAML mapping may contain further keys; they ride along in the
Python dict unread and no claim depends on them. -/
structure RawDict where
  title : Option Value := none
  price : Option Value := none
  description : Option Value := none
  available : Option Value := none
deriving DecidableEq

/-- Outcome of `yaml.safe_load` on the front-matter block: a mapping, a
falsy document (None, empty string, 0, empty list - all collapsed to the
empty dict by `or` on line 102), or a truthy non-mapping document, whose
later item assignment raises an uncaught TypeError. -/
inductive YamlOut where
  | null : YamlOut
  | dict : RawDict → YamlOut
  | scalar : YamlOut

/-- A parsed and validated menu item as built by `parse_menu_item` (lines
99-117): the front-matter fields plus the computed slug, source path,
category, stripped body content, and the `price_numeric` added by
validation. -/
structure ParsedItem where
  fields : RawDict
  slug : String
  file_path : String
  category : String
  content : String
  price_numeric : Rat
deriving DecidableEq

/-- Lines 104-117 of `parse_menu_item`: augment the parsed dict with the
computed slug, source path, category and stripped body content, validate,
and on success attach `price_numeric`. -/
def parseValidated (relDirs : List String) (fname : String)
    (lines : List (List Char)) (d : RawDict) : Except Unit (Option ParsedItem) :=
  match validate_menu_item d.title d.price with
  | .error _ => .ok none
  | .ok q =>
    .ok (some ⟨d, pyStem fname, String.intercalate "/" (relDirs ++ [fname]),
      extract_category (relDirs ++ [fname]),
      ⟨trimWs (joinLines (lines.drop (collectFM lines 0 false).2))⟩, q⟩)

/-- The body of `parse_menu_item` over the split line list. The YAML
library is not part of the source tree, so it enters as the parameter
`ysl`: an arbitrary function from the joined front-matter text to either
a parse failure (`yaml.YAMLError`, caught on line 119) or a `YamlOut`.
The `.error ()` result models the uncaught TypeError on a truthy
non-mapping document, which only the caller's blanket per-file handler
catches. -/
def parseWithLines (ysl : String → Except Unit YamlOut) (relDirs : List String)
    (fname : String) (lines : List (List Char)) : Except Unit (Option ParsedItem) :=
  match lines with
  | [] => .ok none
  | l0 :: _ =>
    if !isDelim l0 then .ok none
    else if (collectFM lines 0 false).1.isEmpty then .ok none
    else
      match ysl ⟨joinLines (collectFM lines 0 false).1⟩ with
      | .error _ => .ok none
      | .ok .scalar => .error ()
      | .ok .null => parseValidated relDirs fname lines ⟨none, none, none, none⟩
      | .ok (.dict d) => parseValidated relDirs fname lines d

/-- `parse_menu_item` (lines 74-121). The path of the file relative to
the content root is given as the directory segments `relDirs` plus the
file name. -/
def parse_menu_item (ysl : String → Except Unit YamlOut) (relDirs : List String)
    (fname : String) (content : String) : Except Unit (Option ParsedItem) :=
  parseWithLines ysl relDirs fname (splitLines content.data)

/-- Association-list lookup with string keys (Python `dict.get`). -/
def alookup {α : Type} : List (String × α) → String → Option α
  | [], _ => none
  | p :: rest, key => if p.1 = key then some p.2 else alookup rest key

/-- Key membership in an association list (Python `in` on a dict). -/
def containsKey {α : Type} (l : List (String × α)) (k : String) : Bool :=
  l.any (fun p => p.1 == k)

/-- Python dict assignment `d[k] = v`: replace in place when the key is
present (Python preserves the original insertion position), else append. -/
def insertD {α : Type} (l : List (String × α)) (k : String) (v : α) : List (String × α) :=
  if containsKey l k then l.map (fun p => if p.1 = k then (k, v) else p)
  else l ++ [(k, v)]

/-- The POS mapping tables `pos_mapping['global'][system]['items']`; each
`.get(..., {})` step on lines 159-176 turns a missing level into the
empty table, so the two item tables determine all behaviour. -/
structure PosMapping where
  loyverse : List (String × String)
  odoo : List (String × String)

/-- A validated menu item as consumed by `convert_to_pos_format`: the
fields the loop body reads from `item_data`. -/
structure MenuItem where
  title : Value
  price_numeric : Rat
  description : Option Value
  available : Option Value
  category : String
deriving DecidableEq

/-- Line 163: `loyverse_global.get(slug, f"omg-sushi-...")` with the slug
interpolated after the fixed brand prefix. -/
def loyverse_id (m : PosMapping) (slug : String) : String :=
  (alookup m.loyverse slug).getD ("omg-sushi-" ++ slug)

/-- Line 177: the same lookup-or-fallback against the Odoo table. -/
def odoo_id (m : PosMapping) (slug : String) : String :=
  (alookup m.odoo slug).getD ("omg-sushi-" ++ slug)

/-- The Loyverse record shape built on lines 165-173. -/
structure LoyverseRecord where
  name : Value
  price : Rat
  description : Value
  category : String
  available : Value
  sku : String
  hugo_slug : String
deriving DecidableEq

/-- The Odoo record shape built on lines 179-187. -/
structure OdooRecord where
  name : Value
  list_price : Rat
  description : Value
  categ_id : String
  active : Value
  default_code : String
  hugo_slug : String
deriving DecidableEq

/-- Record payload for `pos_items['loyverse'][loyverse_id]` with the
defaults of `item_data.get('description', '')` and
`item_data.get('available', True)` applied. -/
def loyverseRecordOf (it : MenuItem) (lid slug : String) : LoyverseRecord :=
  ⟨it.title, it.price_numeric, it.description.getD (.vstr ""), it.category,
    it.available.getD (.vbool true), lid, slug⟩

/-- Record payload for `pos_items['odoo'][odoo_id]`, same defaults. -/
def odooRecordOf (it : MenuItem) (oid slug : String) : OdooRecord :=
  ⟨it.title, it.price_numeric, it.description.getD (.vstr ""), it.category,
    it.available.getD (.vbool true), oid, slug⟩

/-- The pair of output tables `pos_items['loyverse']`, `pos_items['odoo']`. -/
abbrev PosItems : Type := List (String × LoyverseRecord) × List (String × OdooRecord)

/-- One iteration of the loop body on lines 157-187. -/
def convertStep (m : PosMapping) (acc : PosItems) (slug : String) (it : MenuItem) : PosItems :=
  let lid := loyverse_id m slug
  let oid := odoo_id m slug
  (insertD acc.1 lid (loyverseRecordOf it lid slug),
   insertD acc.2 oid (odooRecordOf it oid slug))

/-- The loop of `convert_to_pos_format`, accumulator explicit. -/
def convertAux (m : PosMapping) (acc : PosItems) : List (String × MenuItem) → PosItems
  | [] => acc
  | (slug, it) :: rest => convertAux m (convertStep m acc slug it) rest

/-- `convert_to_pos_format` (lines 150-189). -/
def convert_to_pos_format (m : PosMapping) (items : List (String × MenuItem)) : PosItems :=
  convertAux m ([], []) items

/-- File names written by `save_pos_data` (lines 191-210): the combined
YAML dump, the combined JSON dump, and one YAML file per POS system (the
loop over `pos_items.items()` visits exactly loyverse and odoo). The
serialized contents are modelled by the dump functions below. -/
def save_pos_data_files : List String :=
  ["pos-menu-data.yaml", "pos-menu-data.json",
   "pos-menu-loyverse.yaml", "pos-menu-odoo.yaml"]

/-- `run_conversion` (lines 243-266) projected onto its observable
effects: the output files written and the warnings logged. With an empty
scan result it logs "No menu items found" and returns before any writer
runs; otherwise it converts, saves, and writes the mapping report. -/
def run_conversion (m : PosMapping) (menu_items : List (String × MenuItem)) :
    List String × List String :=
  if menu_items.isEmpty then ([], ["No menu items found"])
  else
    let _pos := convert_to_pos_format m menu_items
    (save_pos_data_files ++ ["mapping-report.md"], [])

/-- Fixture: a YAML stub returning the spec scenario's front matter. -/
def wYsl : String → Except Unit YamlOut :=
  fun _ => .ok (.dict ⟨some (.vstr "Spicy Tuna Roll"), some (.vstr "$12.50"), none, none⟩)

/-- Fixture: a YAML stub that always fails to parse. -/
def wYslErr : String → Except Unit YamlOut := fun _ => .error ()

/-- Fixture: the parsed item for the spec scenario
`content/rolls/spicy-tuna.md`. -/
def wItem : ParsedItem :=
  ⟨⟨some (.vstr "Spicy Tuna Roll"), some (.vstr "$12.50"), none, none⟩,
    "spicy-tuna", "rolls/spicy-tuna.md", "rolls", "A roll", 25 / 2⟩

/-- Fixture: a validated menu item with plain field values. -/
def cItem : MenuItem := ⟨.vstr "A", 1, none, none, "cat"⟩

/-- Fixture: a content file with front matter and a one-line body. -/
def wContent : String := "---\nx\n---\nA roll"

/-- Fixture: a mapping with one explicit Loyverse entry. -/
def c3m : PosMapping := ⟨[("spicy-tuna", "loy-123")], []⟩

/-- Fixture: a mapping sending two different slugs to one identifier. -/
def c4m : PosMapping := ⟨[("a", "x"), ("b", "x")], []⟩

/-- Fixture: the empty mapping. -/
def c4m0 : PosMapping := ⟨[], []⟩

/-! ## Serialization model for the writer

The `yaml` and `json` libraries that `save_pos_data` calls are not part of
the source tree. Modelled from the spec: the writer serializes the same
in-memory table to a structured human-editable format (YAML block style)
and a machine-interchange format (JSON), and parsing either back recovers
the table. The dump functions below emit the scalar forms the libraries
use (unquoted YAML scalars, quoted JSON strings, `true`/`false`/`null`,
decimal numbers); key sorting and quoting of exotic strings are library
formatting details outside the model, so the round-trip theorems restrict
to tables whose strings are plain (`safeStrB`) and whose numbers are
finite decimals (every Python float is). -/

/-- A parsed numeric scalar: an int literal or a decimal literal. -/
inductive NumLit where
  | int : Int → NumLit
  | dec : Rat → NumLit
deriving DecidableEq

/-- The Python value of a numeric literal. -/
def NumLit.toVal : NumLit → Value
  | .int n => .vint n
  | .dec q => .vfloat q

/-- The rational value of a numeric literal. -/
def NumLit.toRat : NumLit → Rat
  | .int n => (n : Rat)
  | .dec q => q

/-- Negate a numeric literal. -/
def NumLit.neg : NumLit → NumLit
  | .int n => .int (-n)
  | .dec q => .dec (-q)

/-- Parse an unsigned numeric scalar: digits with an optional fractional
part. -/
def parseNumNat (cs : List Char) : Option (NumLit × List Char) :=
  match spanDigits cs with
  | (ip, r1) =>
    if ip.isEmpty then none
    else
      match r1 with
      | '.' :: r2 =>
        match spanDigits r2 with
        | (fp, r3) =>
          if fp.isEmpty then none
          else some (.dec (((valNat ip : Rat) * 10 ^ fp.length + (valNat fp : Rat)) /
            10 ^ fp.length), r3)
      | _ => some (.int (valNat ip), r1)

/-- Parse a numeric scalar with an optional leading minus sign. -/
def parseNum (cs : List Char) : Option (NumLit × List Char) :=
  match cs with
  | '-' :: cs1 =>
    match parseNumNat cs1 with
    | some (l, r) => some (l.neg, r)
    | none => none
  | _ => parseNumNat cs

/-- Parse a numeric scalar that must consume its whole input. -/
def parseNumFull (cs : List Char) : Option NumLit :=
  match parseNum cs with
  | some (l, []) => some l
  | _ => none

/-- Split a character list at the first occurrence of `c`, dropping it. -/
def splitAtChar (c : Char) : List Char → Option (List Char × List Char)
  | [] => none
  | x :: t =>
    if x = c then some ([], t)
    else (splitAtChar c t).map (fun pr => (x :: pr.1, pr.2))

/-- Consume an expected literal, returning the remainder. -/
def expectLit : List Char → List Char → Option (List Char)
  | [], cs => some cs
  | p :: ps, c :: cs => if c = p then expectLit ps cs else none
  | _ :: _, [] => none

/-- The input jumps out of a digit run: empty or a non-digit head. -/
def headNotDigit : List Char → Bool
  | [] => true
  | c :: _ => !c.isDigit

/-- The input cannot extend a numeric literal: empty, or a head that is
neither a digit nor a dot. -/
def numBreak : List Char → Bool
  | [] => true
  | c :: _ => !(c.isDigit || c == '.')

/-- Characters that need no quoting or escaping in either format. -/
def safeChar (c : Char) : Bool :=
  c.isAlphanum || c == ' ' || c == '-' || c == '_' || c == '.'

/-- A first character that cannot start a numeric literal or quote. -/
def plainFirst (c : Char) : Bool :=
  !c.isDigit && c != '-' && c != '\x27' && c != '"'

/-- A plain string: nonempty, safe characters, not starting like a
number, and not one of the scalar keywords. -/
def safeStrB (s : String) : Bool :=
  !s.data.isEmpty && plainFirst (s.data.headD 'a') && s.data.all safeChar &&
    !(s.data == "true".data) && !(s.data == "false".data) && !(s.data == "null".data)

/-- A scalar value both formats carry faithfully. -/
def safeValueB : Value → Bool
  | .vstr s => s == "" || safeStrB s
  | .vint _ => true
  | .vfloat q => IsDecimalB q
  | .vbool _ => true
  | .vnone => true

/-- A Loyverse record with plain strings and a decimal price. -/
def safeLoyRecB (r : LoyverseRecord) : Bool :=
  safeValueB r.name && IsDecimalB r.price && safeValueB r.description &&
    safeStrB r.category && safeValueB r.available && safeStrB r.sku &&
    safeStrB r.hugo_slug

/-- An Odoo record with plain strings and a decimal price. -/
def safeOdooRecB (r : OdooRecord) : Bool :=
  safeValueB r.name && IsDecimalB r.list_price && safeValueB r.description &&
    safeStrB r.categ_id && safeValueB r.active && safeStrB r.default_code &&
    safeStrB r.hugo_slug

/-- A table pair with plain keys and safe records. -/
def safeTableB (t : PosItems) : Bool :=
  t.1.all (fun p => safeStrB p.1 && safeLoyRecB p.2) &&
    t.2.all (fun p => safeStrB p.1 && safeOdooRecB p.2)

/-- JSON string literal (safe strings need no escapes). -/
def jsonStr (s : String) : String := "\"" ++ s ++ "\""

/-- JSON scalar for a Python value. -/
def jsonVal : Value → String
  | .vstr s => jsonStr s
  | .vint n => intStr n
  | .vfloat q => renderRat q
  | .vbool b => if b then "true" else "false"
  | .vnone => "null"

/-- JSON object for a Loyverse record, fields in source dict order. -/
def jsonLoyRec (r : LoyverseRecord) : String :=
  "\x7b\"name\":" ++ jsonVal r.name ++ ",\"price\":" ++ renderRat r.price ++
    ",\"description\":" ++ jsonVal r.description ++ ",\"category\":" ++ jsonStr r.category ++
    ",\"available\":" ++ jsonVal r.available ++ ",\"sku\":" ++ jsonStr r.sku ++
    ",\"hugo_slug\":" ++ jsonStr r.hugo_slug ++ "\x7d"

/-- JSON object for an Odoo record, fields in source dict order. -/
def jsonOdooRec (r : OdooRecord) : String :=
  "\x7b\"name\":" ++ jsonVal r.name ++ ",\"list_price\":" ++ renderRat r.list_price ++
    ",\"description\":" ++ jsonVal r.description ++ ",\"categ_id\":" ++ jsonStr r.categ_id ++
    ",\"active\":" ++ jsonVal r.active ++ ",\"default_code\":" ++ jsonStr r.default_code ++
    ",\"hugo_slug\":" ++ jsonStr r.hugo_slug ++ "\x7d"

/-- Trailing entries of a JSON object after the first. -/
def jsonTableRest {ρ : Type} (dr : ρ → String) : List (String × ρ) → String
  | [] => "\x7d"
  | (k, r) :: t => "," ++ jsonStr k ++ ":" ++ dr r ++ jsonTableRest dr t

/-- A JSON object keyed by external identifiers. -/
def jsonTable {ρ : Type} (dr : ρ → String) (es : List (String × ρ)) : String :=
  match es with
  | [] => "\x7b\x7d"
  | (k, r) :: t => "\x7b" ++ jsonStr k ++ ":" ++ dr r ++ jsonTableRest dr t

/-- The combined JSON dump `pos-menu-data.json` of both tables. -/
def jsonDumpPos (t : PosItems) : String :=
  "\x7b\"loyverse\":" ++ jsonTable jsonLoyRec t.1 ++ ",\"odoo\":" ++
    jsonTable jsonOdooRec t.2 ++ "\x7d"

/-- Parse a JSON string literal. -/
def parseJStr : List Char → Option (String × List Char)
  | '"' :: t => (splitAtChar '"' t).map (fun pr => (⟨pr.1⟩, pr.2))
  | _ => none

/-- Parse a JSON scalar, dispatching on the first character. -/
def parseJVal (cs : List Char) : Option (Value × List Char) :=
  match cs with
  | [] => none
  | c :: _ =>
    if c = '"' then (parseJStr cs).map (fun pr => (.vstr pr.1, pr.2))
    else if c = 't' then (expectLit "true".data cs).map (fun r => (.vbool true, r))
    else if c = 'f' then (expectLit "false".data cs).map (fun r => (.vbool false, r))
    else if c = 'n' then (expectLit "null".data cs).map (fun r => (.vnone, r))
    else (parseNum cs).map (fun pr => (pr.1.toVal, pr.2))

/-- Parse a JSON Loyverse record. -/
def parseJLoyRec (cs : List Char) : Option (LoyverseRecord × List Char) :=
  match expectLit "\x7b\"name\":".data cs with
  | none => none
  | some cs =>
  match parseJVal cs with
  | none => none
  | some (nm, cs) =>
  match expectLit ",\"price\":".data cs with
  | none => none
  | some cs =>
  match parseNum cs with
  | none => none
  | some (pr, cs) =>
  match expectLit ",\"description\":".data cs with
  | none => none
  | some cs =>
  match parseJVal cs with
  | none => none
  | some (ds, cs) =>
  match expectLit ",\"category\":".data cs with
  | none => none
  | some cs =>
  match parseJStr cs with
  | none => none
  | some (ct, cs) =>
  match expectLit ",\"available\":".data cs with
  | none => none
  | some cs =>
  match parseJVal cs with
  | none => none
  | some (av, cs) =>
  match expectLit ",\"sku\":".data cs with
  | none => none
  | some cs =>
  match parseJStr cs with
  | none => none
  | some (sk, cs) =>
  match expectLit ",\"hugo_slug\":".data cs with
  | none => none
  | some cs =>
  match parseJStr cs with
  | none => none
  | some (hs, cs) =>
  match expectLit ['\x7d'] cs with
  | none => none
  | some cs => some (⟨nm, pr.toRat, ds, ct, av, sk, hs⟩, cs)

/-- Parse a JSON Odoo record. -/
def parseJOdooRec (cs : List Char) : Option (OdooRecord × List Char) :=
  match expectLit "\x7b\"name\":".data cs with
  | none => none
  | some cs =>
  match parseJVal cs with
  | none => none
  | some (nm, cs) =>
  match expectLit ",\"list_price\":".data cs with
  | none => none
  | some cs =>
  match parseNum cs with
  | none => none
  | some (pr, cs) =>
  match expectLit ",\"description\":".data cs with
  | none => none
  | some cs =>
  match parseJVal cs with
  | none => none
  | some (ds, cs) =>
  match expectLit ",\"categ_id\":".data cs with
  | none => none
  | some cs =>
  match parseJStr cs with
  | none => none
  | some (ct, cs) =>
  match expectLit ",\"active\":".data cs with
  | none => none
  | some cs =>
  match parseJVal cs with
  | none => none
  | some (av, cs) =>
  match expectLit ",\"default_code\":".data cs with
  | none => none
  | some cs =>
  match parseJStr cs with
  | none => none
  | some (sk, cs) =>
  match expectLit ",\"hugo_slug\":".data cs with
  | none => none
  | some cs =>
  match parseJStr cs with
  | none => none
  | some (hs, cs) =>
  match expectLit ['\x7d'] cs with
  | none => none
  | some cs => some (⟨nm, pr.toRat, ds, ct, av, sk, hs⟩, cs)

/-- Parse trailing JSON object entries, fuelled (each step consumes at
least one character, so any fuel above the entry count suffices). -/
def parseJTableRest {ρ : Type} (pr : List Char → Option (ρ × List Char)) :
    Nat → List Char → Option (List (String × ρ) × List Char)
  | 0, _ => none
  | f + 1, cs =>
    match cs with
    | '\x7d' :: rest => some ([], rest)
    | ',' :: cs1 =>
      match parseJStr cs1 with
      | none => none
      | some (k, cs2) =>
      match expectLit [':'] cs2 with
      | none => none
      | some cs3 =>
      match pr cs3 with
      | none => none
      | some (r, cs4) =>
      match parseJTableRest pr f cs4 with
      | none => none
      | some (t, cs5) => some ((k, r) :: t, cs5)
    | _ => none

/-- Parse a JSON object keyed by external identifiers. -/
def parseJTable {ρ : Type} (pr : List Char → Option (ρ × List Char))
    (cs : List Char) : Option (List (String × ρ) × List Char) :=
  match cs with
  | '\x7b' :: '\x7d' :: rest => some ([], rest)
  | '\x7b' :: cs1 =>
    match parseJStr cs1 with
    | none => none
    | some (k, cs2) =>
    match expectLit [':'] cs2 with
    | none => none
    | some cs3 =>
    match pr cs3 with
    | none => none
    | some (r, cs4) =>
    match parseJTableRest pr (cs4.length + 1) cs4 with
    | none => none
    | some (t, cs5) => some ((k, r) :: t, cs5)
  | _ => none

/-- Parse the combined JSON dump. -/
def parseJsonPos (cs : List Char) : Option (PosItems × List Char) :=
  match expectLit "\x7b\"loyverse\":".data cs with
  | none => none
  | some cs1 =>
  match parseJTable parseJLoyRec cs1 with
  | none => none
  | some (loy, cs2) =>
  match expectLit ",\"odoo\":".data cs2 with
  | none => none
  | some cs3 =>
  match parseJTable parseJOdooRec cs3 with
  | none => none
  | some (odo, cs4) =>
  match expectLit ['\x7d'] cs4 with
  | none => none
  | some cs5 => some ((loy, odo), cs5)

/-- YAML plain scalar for a Python value (the empty string is quoted). -/
def yamlVal : Value → String
  | .vstr s => if s = "" then "\x27\x27" else s
  | .vint n => intStr n
  | .vfloat q => renderRat q
  | .vbool b => if b then "true" else "false"
  | .vnone => "null"

/-- Classify a YAML scalar segment: number, keyword, quoted empty string,
or plain string. -/
def yamlScalar (seg : List Char) : Value :=
  match parseNumFull seg with
  | some l => l.toVal
  | none =>
    if seg = "true".data then .vbool true
    else if seg = "false".data then .vbool false
    else if seg = "null".data then .vnone
    else if seg = ['\x27', '\x27'] then .vstr ""
    else .vstr ⟨seg⟩

/-- YAML block lines of a Loyverse record at indent 4. -/
def yamlLoyRec (r : LoyverseRecord) : String :=
  "    name: " ++ yamlVal r.name ++ "\n    price: " ++ renderRat r.price ++
    "\n    description: " ++ yamlVal r.description ++ "\n    category: " ++ r.category ++
    "\n    available: " ++ yamlVal r.available ++ "\n    sku: " ++ r.sku ++
    "\n    hugo_slug: " ++ r.hugo_slug ++ "\n"

/-- YAML block lines of an Odoo record at indent 4. -/
def yamlOdooRec (r : OdooRecord) : String :=
  "    name: " ++ yamlVal r.name ++ "\n    list_price: " ++ renderRat r.list_price ++
    "\n    description: " ++ yamlVal r.description ++ "\n    categ_id: " ++ r.categ_id ++
    "\n    active: " ++ yamlVal r.active ++ "\n    default_code: " ++ r.default_code ++
    "\n    hugo_slug: " ++ r.hugo_slug ++ "\n"

/-- YAML entries of one system table: each key line at indent 2 followed
by the record block. -/
def yamlEntries {ρ : Type} (dr : ρ → String) : List (String × ρ) → String
  | [] => ""
  | (k, r) :: t => "  " ++ k ++ ":\n" ++ dr r ++ yamlEntries dr t

/-- The combined YAML dump `pos-menu-data.yaml` of both tables. -/
def yamlDumpPos (t : PosItems) : String :=
  "loyverse:\n" ++ yamlEntries yamlLoyRec t.1 ++ "odoo:\n" ++ yamlEntries yamlOdooRec t.2

/-- Parse one labelled YAML field line: the label and then the raw
segment up to the newline. -/
def parseYField (label : List Char) (cs : List Char) : Option (List Char × List Char) :=
  match expectLit label cs with
  | none => none
  | some cs1 => splitAtChar '\n' cs1

/-- Parse a YAML Loyverse record block. -/
def parseYLoyRec (cs : List Char) : Option (LoyverseRecord × List Char) :=
  match parseYField "    name: ".data cs with
  | none => none
  | some (nm, cs) =>
  match parseYField "    price: ".data cs with
  | none => none
  | some (pr, cs) =>
  match parseYField "    description: ".data cs with
  | none => none
  | some (ds, cs) =>
  match parseYField "    category: ".data cs with
  | none => none
  | some (ct, cs) =>
  match parseYField "    available: ".data cs with
  | none => none
  | some (av, cs) =>
  match parseYField "    sku: ".data cs with
  | none => none
  | some (sk, cs) =>
  match parseYField "    hugo_slug: ".data cs with
  | none => none
  | some (hs, cs) =>
  match parseNumFull pr with
  | none => none
  | some prl =>
    some (⟨yamlScalar nm, prl.toRat, yamlScalar ds, ⟨ct⟩, yamlScalar av, ⟨sk⟩, ⟨hs⟩⟩, cs)

/-- Parse a YAML Odoo record block. -/
def parseYOdooRec (cs : List Char) : Option (OdooRecord × List Char) :=
  match parseYField "    name: ".data cs with
  | none => none
  | some (nm, cs) =>
  match parseYField "    list_price: ".data cs with
  | none => none
  | some (pr, cs) =>
  match parseYField "    description: ".data cs with
  | none => none
  | some (ds, cs) =>
  match parseYField "    categ_id: ".data cs with
  | none => none
  | some (ct, cs) =>
  match parseYField "    active: ".data cs with
  | none => none
  | some (av, cs) =>
  match parseYField "    default_code: ".data cs with
  | none => none
  | some (sk, cs) =>
  match parseYField "    hugo_slug: ".data cs with
  | none => none
  | some (hs, cs) =>
  match parseNumFull pr with
  | none => none
  | some prl =>
    some (⟨yamlScalar nm, prl.toRat, yamlScalar ds, ⟨ct⟩, yamlScalar av, ⟨sk⟩, ⟨hs⟩⟩, cs)

/-- Parse YAML entries of one system table, fuelled: entries start with
the indent space, anything else ends the table. -/
def parseYEntries {ρ : Type} (pr : List Char → Option (ρ × List Char)) :
    Nat → List Char → Option (List (String × ρ) × List Char)
  | 0, _ => none
  | f + 1, cs =>
    match cs with
    | ' ' :: _ =>
      match expectLit "  ".data cs with
      | none => none
      | some cs1 =>
      match splitAtChar ':' cs1 with
      | none => none
      | some (k, cs2) =>
      match expectLit ['\n'] cs2 with
      | none => none
      | some cs3 =>
      match pr cs3 with
      | none => none
      | some (r, cs4) =>
      match parseYEntries pr f cs4 with
      | none => none
      | some (t, cs5) => some ((⟨k⟩, r) :: t, cs5)
    | _ => some ([], cs)

/-- Parse the combined YAML dump. -/
def parseYamlPos (cs : List Char) : Option (PosItems × List Char) :=
  match expectLit "loyverse:\n".data cs with
  | none => none
  | some cs1 =>
  match parseYEntries parseYLoyRec (cs1.length + 1) cs1 with
  | none => none
  | some (loy, cs2) =>
  match expectLit "odoo:\n".data cs2 with
  | none => none
  | some cs3 =>
  match parseYEntries parseYOdooRec (cs3.length + 1) cs3 with
  | none => none
  | some (odo, cs4) => some ((loy, odo), cs4)

/-- Fixture: a safe one-entry table pair for the round-trip witness. -/
def wTable : PosItems :=
  ([("omg-sushi-spicy-tuna",
      ⟨.vstr "Spicy Tuna Roll", 12, .vstr "", "rolls", .vbool true,
        "omg-sushi-spicy-tuna", "spicy-tuna"⟩)],
   [("omg-sushi-spicy-tuna",
      ⟨.vstr "Spicy Tuna Roll", 12, .vstr "", "rolls", .vbool true,
        "omg-sushi-spicy-tuna", "spicy-tuna"⟩)])

/-! ## Helper lemmas -/

/-- Characterization of validator success: both required fields present
and truthy and the stripped price string parses. -/
theorem validate_ok_iff (t p : Option Value) (q : Rat) :
    validate_menu_item t p = .ok q ↔
      ∃ tv pv, t = some tv ∧ p = some pv ∧ pyTruthy tv = true ∧ pyTruthy pv = true ∧
        pyFloat (stripPrice (pyStr pv)) = some q := by
  constructor
  · intro h
    rcases t with _ | tv
    · exact absurd h (by simp [validate_menu_item])
    · rcases p with _ | pv
      · cases htv : pyTruthy tv <;> simp [validate_menu_item, htv] at h
      · cases htv : pyTruthy tv
        · simp [validate_menu_item, htv] at h
        · cases hpv : pyTruthy pv
          · simp [validate_menu_item, htv, hpv] at h
          · rcases hf : pyFloat (stripPrice (pyStr pv)) with _ | q'
            · simp [validate_menu_item, htv, hpv, hf] at h
            · have hq : q' = q := by simpa [validate_menu_item, htv, hpv, hf] using h
              exact ⟨tv, pv, rfl, rfl, htv, hpv, hq ▸ hf⟩
  · rintro ⟨tv, pv, rfl, rfl, htv, hpv, hf⟩
    simp [validate_menu_item, htv, hpv, hf]

/-- Shape of a successful `parse_menu_item` result. -/
theorem parse_ok_inv (ysl : String → Except Unit YamlOut) (relDirs : List String)
    (fname content : String) (item : ParsedItem)
    (h : parse_menu_item ysl relDirs fname content = .ok (some item)) :
    ∃ d q, validate_menu_item d.title d.price = .ok q ∧
      item = ⟨d, pyStem fname, String.intercalate "/" (relDirs ++ [fname]),
        extract_category (relDirs ++ [fname]),
        ⟨trimWs (joinLines ((splitLines content.data).drop
          (collectFM (splitLines content.data) 0 false).2))⟩, q⟩ := by
  unfold parse_menu_item at h
  revert h
  generalize splitLines content.data = lines
  intro h
  unfold parseWithLines at h
  split at h
  · exact absurd h (by simp)
  · split at h
    · exact absurd h (by simp)
    · split at h
      · exact absurd h (by simp)
      · split at h
        · exact absurd h (by simp)
        · exact absurd h (by simp)
        · unfold parseValidated at h
          split at h
          · exact absurd h (by simp)
          · rename_i q hval
            injection h with h
            injection h with h
            exact ⟨_, q, hval, h.symm⟩
        · unfold parseValidated at h
          split at h
          · exact absurd h (by simp)
          · rename_i q hval
            injection h with h
            injection h with h
            exact ⟨_, q, hval, h.symm⟩

/-! ## Claim C1 -/

/-- Claim C1, counterexample: the validator accepts a record whose price
field strips to "-5", convertible only to a negative number, so the
claimed "accepts if and only if ... convertible to a non-negative number"
fails on the code (which never checks the sign; it also rejects the
falsy price 0, the other direction of the same if-and-only-if). -/
theorem claim1_counterexample :
    validate_menu_item (some (.vstr "Roll")) (some (.vstr "-5")) = .ok (-5) ∧
      (-5 : ℚ) < 0 := by
  constructor
  · simp +decide [validate_menu_item, pyTruthy, pyStr, stripPrice, pyFloat, trimWs,
      spanDigits, valNat, charDigit, isPyWs]
  · norm_num

/-- Claim C1, amended: the validator accepts a raw record exactly when the
title is present and truthy, the price is present and truthy, and the
price - as a string, with dollar signs and commas stripped - parses as a
float of either sign. -/
theorem claim1_amended_validator_acceptance :
    ∀ t p : Option Value,
      (∃ q, validate_menu_item t p = .ok q) ↔
        ((∃ tv, t = some tv ∧ pyTruthy tv = true) ∧
         (∃ pv, p = some pv ∧ pyTruthy pv = true ∧
            (pyFloat (stripPrice (pyStr pv))).isSome = true)) := by
  intro t p
  constructor
  · rintro ⟨q, h⟩
    obtain ⟨tv, pv, rfl, rfl, h1, h2, h3⟩ := (validate_ok_iff _ _ _).mp h
    exact ⟨⟨tv, rfl, h1⟩, ⟨pv, rfl, h2, by simp [h3]⟩⟩
  · rintro ⟨⟨tv, rfl, h1⟩, ⟨pv, rfl, h2, h3⟩⟩
    obtain ⟨q, hq⟩ := Option.isSome_iff_exists.mp h3
    exact ⟨q, (validate_ok_iff _ _ _).mpr ⟨tv, pv, rfl, rfl, h1, h2, hq⟩⟩

/-! ## Claim C9 -/

/-- Claim C9: a present but falsy price (the number 0, the empty string,
False, ...) is rejected by the presence-and-truthiness loop as a missing
required field, even though the stripped string of 0 parses as the
non-negative float 0. -/
theorem claim9_falsy_price_rejected :
    (∀ tv pv, pyTruthy tv = true → pyTruthy pv = false →
      validate_menu_item (some tv) (some pv) = .error (.missingField "price")) ∧
    pyFloat (stripPrice (pyStr (.vint 0))) = some 0 := by
  constructor
  · intro tv pv htv hpv
    simp [validate_menu_item, htv, hpv]
  · simp +decide [pyStr, intStr, natDigits, stripPrice, pyFloat, trimWs, spanDigits,
      valNat, charDigit, isPyWs]

/-- Witness for C9 at the record `title: "Roll", price: 0`. -/
theorem claim9_witness :
    pyTruthy (.vstr "Roll") = true ∧ pyTruthy (.vint 0) = false ∧
      validate_menu_item (some (.vstr "Roll")) (some (.vint 0)) =
        .error (.missingField "price") :=
  ⟨by decide, by decide, claim9_falsy_price_rejected.1 _ _ (by decide) (by decide)⟩

/-! ## Claim C2 -/

/-- Claim C2: for every content file that parses and passes validation,
the resulting item's `price_numeric` equals the price value converted to
a string, stripped of every dollar sign and comma, and parsed as a
float. -/
theorem claim2_price_numeric :
    ∀ ysl relDirs fname content item,
      parse_menu_item ysl relDirs fname content = .ok (some item) →
      ∃ pv, item.fields.price = some pv ∧
        pyFloat (stripPrice (pyStr pv)) = some item.price_numeric := by
  intro ysl relDirs fname content item h
  obtain ⟨d, q, hval, rfl⟩ := parse_ok_inv ysl relDirs fname content item h
  obtain ⟨tv, pv, hteq, hpeq, htv, hpv, hf⟩ := (validate_ok_iff _ _ _).mp hval
  exact ⟨pv, hpeq, hf⟩

/-- Witness for C2 on the spec scenario `content/rolls/spicy-tuna.md`
with price "$12.50". -/
theorem claim2_witness :
    parse_menu_item wYsl ["rolls"] "spicy-tuna.md" wContent = .ok (some wItem) ∧
    ∃ pv, wItem.fields.price = some pv ∧
      pyFloat (stripPrice (pyStr pv)) = some wItem.price_numeric := by
  have h : parse_menu_item wYsl ["rolls"] "spicy-tuna.md" wContent = .ok (some wItem) := by
    simp +decide [parse_menu_item, parseWithLines, parseValidated, wContent, wYsl, wItem,
      splitLines, collectFM, isDelim, joinLines, trimWs, isPyWs, validate_menu_item,
      pyTruthy, pyStr, stripPrice, pyFloat, spanDigits, valNat, charDigit, pyStem,
      rfindDot, extract_category]
    norm_num
  exact ⟨h, claim2_price_numeric _ _ _ _ _ h⟩

/-! ## Claim C5 -/

/-- The last dot of `bs ++ ds` sits at offset `bs.length + j` when the
last dot of `ds` sits at `j`. -/
theorem rfindDot_append (bs ds : List Char) (j : Nat) (h : rfindDot ds = some j) :
    rfindDot (bs ++ ds) = some (bs.length + j) := by
  induction bs with
  | nil => simpa using h
  | cons c t ih =>
    simp only [List.cons_append, rfindDot, List.append_eq, ih, List.length_cons]
    exact congrArg some (by omega)

/-- A nonempty string has a nonempty character list. -/
theorem data_ne_nil (b : String) (h : b ≠ "") : b.data ≠ [] := by
  intro hd
  apply h
  cases b with
  | mk l =>
    have hl : l = [] := hd
    subst hl
    rfl

/-- The stem of `b ++ ".md"` is `b` for nonempty `b`: the scanner only
feeds `*.md` names to the parser, and the slug drops that suffix. -/
theorem pyStem_md (b : String) (h : b ≠ "") : pyStem (b ++ ".md") = b := by
  have hne : b.data ≠ [] := data_ne_nil b h
  have hlen : 0 < b.data.length := List.length_pos.mpr hne
  have hdata : (b ++ ".md").data = b.data ++ ['.', 'm', 'd'] := rfl
  have hdot : rfindDot ((b ++ ".md").data) = some b.data.length := by
    have h0 : rfindDot (b.data ++ ['.', 'm', 'd']) = some (b.data.length + 0) :=
      rfindDot_append b.data ['.', 'm', 'd'] 0 (by decide)
    simpa using h0
  have hcond : 0 < b.data.length ∧ b.data.length < (b ++ ".md").data.length - 1 := by
    refine ⟨hlen, ?_⟩
    rw [hdata]
    simp only [List.length_append, List.length_cons, List.length_nil]
    omega
  unfold pyStem
  rw [hdot]
  dsimp only
  rw [if_pos hcond, hdata, List.take_left]

/-- `extract_category` on directory segments plus a file name: the first
segment when there is one, else the sentinel. -/
theorem extract_category_append (dirs : List String) (fname : String) :
    extract_category (dirs ++ [fname]) =
      (match dirs with | [] => "uncategorized" | d :: _ => d) := by
  cases dirs with
  | nil => rfl
  | cons d t =>
    unfold extract_category
    rw [if_pos]
    · rfl
    · simp [List.length_append]

/-- Claim C5: for every parsed content file, the category is the first
path segment under the content root, or "uncategorized" for a file at the
root, and the slug is the file name with the `.md` extension stripped. -/
theorem claim5_category_and_slug :
    ∀ ysl relDirs fname content item b,
      parse_menu_item ysl relDirs fname content = .ok (some item) →
      fname = b ++ ".md" → b ≠ "" →
      (item.category = (match relDirs with | [] => "uncategorized" | d :: _ => d)) ∧
      item.slug = b := by
  intro ysl relDirs fname content item b h hf hb
  obtain ⟨d, q, hval, rfl⟩ := parse_ok_inv ysl relDirs fname content item h
  subst hf
  exact ⟨extract_category_append relDirs _, pyStem_md b hb⟩

/-- Witness for C5 on the spec scenario `content/rolls/spicy-tuna.md`. -/
theorem claim5_witness :
    parse_menu_item wYsl ["rolls"] "spicy-tuna.md" wContent = .ok (some wItem) ∧
    ("spicy-tuna.md" : String) = "spicy-tuna" ++ ".md" ∧ ("spicy-tuna" : String) ≠ "" ∧
    (wItem.category = "rolls" ∧ wItem.slug = "spicy-tuna") := by
  have h : parse_menu_item wYsl ["rolls"] "spicy-tuna.md" wContent = .ok (some wItem) := by
    simp +decide [parse_menu_item, parseWithLines, parseValidated, wContent, wYsl, wItem,
      splitLines, collectFM, isDelim, joinLines, trimWs, isPyWs, validate_menu_item,
      pyTruthy, pyStr, stripPrice, pyFloat, spanDigits, valNat, charDigit, pyStem,
      rfindDot, extract_category]
    norm_num
  exact ⟨h, rfl, by decide,
    claim5_category_and_slug wYsl ["rolls"] "spicy-tuna.md" wContent wItem "spicy-tuna"
      h rfl (by decide)⟩

/-! ## Claim C7 -/

/-- The three no-item outcomes of the parser body, over an arbitrary line
list. -/
theorem parseWithLines_no_item (ysl : String → Except Unit YamlOut)
    (relDirs : List String) (fname : String) (lines : List (List Char)) :
    (isDelim (lines.headD []) = false → parseWithLines ysl relDirs fname lines = .ok none) ∧
    ((collectFM lines 0 false).1 = [] → parseWithLines ysl relDirs fname lines = .ok none) ∧
    (ysl ⟨joinLines (collectFM lines 0 false).1⟩ = .error () →
      parseWithLines ysl relDirs fname lines = .ok none) := by
  cases lines with
  | nil => exact ⟨fun _ => rfl, fun _ => rfl, fun _ => rfl⟩
  | cons l0 rest =>
    refine ⟨?_, ?_, ?_⟩
    · intro h
      simp only [List.headD_cons] at h
      simp [parseWithLines, h]
    · intro h
      by_cases hd : isDelim l0
      · simp [parseWithLines, hd, h]
      · simp [parseWithLines, hd]
    · intro h
      by_cases hd : isDelim l0
      · by_cases he : (collectFM (l0 :: rest) 0 false).1.isEmpty
        · simp [parseWithLines, hd, he]
        · simp [parseWithLines, hd, he, h]
      · simp [parseWithLines, hd]

/-- Claim C7: the front-matter parser returns "no item" (not an error)
when the text does not begin with a delimiter line, when the block
between the delimiters is absent, and when the block is malformed (the
YAML parser reports an error). -/
theorem claim7_front_matter_no_item :
    ∀ ysl relDirs fname (content : String),
      (isDelim ((splitLines content.data).headD []) = false →
        parse_menu_item ysl relDirs fname content = .ok none) ∧
      ((collectFM (splitLines content.data) 0 false).1 = [] →
        parse_menu_item ysl relDirs fname content = .ok none) ∧
      (ysl ⟨joinLines (collectFM (splitLines content.data) 0 false).1⟩ = .error () →
        parse_menu_item ysl relDirs fname content = .ok none) := by
  intro ysl relDirs fname content
  exact parseWithLines_no_item ysl relDirs fname (splitLines content.data)

/-- Witness for C7: text without a leading delimiter, text with an empty
front-matter block, and a failing YAML parse each yield "no item". -/
theorem claim7_witness :
    parse_menu_item wYslErr [] "a.md" "hello" = .ok none ∧
    parse_menu_item wYslErr [] "a.md" "---\n---\nrest" = .ok none ∧
    parse_menu_item wYslErr [] "a.md" wContent = .ok none :=
  ⟨(claim7_front_matter_no_item wYslErr [] "a.md" "hello").1 (by decide),
   (claim7_front_matter_no_item wYslErr [] "a.md" "---\n---\nrest").2.1 (by decide),
   (claim7_front_matter_no_item wYslErr [] "a.md" wContent).2.2 rfl⟩

/-! ## Association-list lemmas for the converter -/

/-- Key membership unfolded to an existential. -/
theorem containsKey_iff {α : Type} (l : List (String × α)) (k : String) :
    containsKey l k = true ↔ ∃ p ∈ l, p.1 = k := by
  simp [containsKey, List.any_eq_true]

/-- Membership after appending a single binding. -/
theorem containsKey_append_single {α : Type} (l : List (String × α)) (k k' : String) (v : α) :
    containsKey (l ++ [(k, v)]) k' = (containsKey l k' || (k == k')) := by
  simp [containsKey, List.any_append]

/-- A fresh key is appended. -/
theorem insertD_of_not_contains {α : Type} (l : List (String × α)) (k : String) (v : α)
    (h : containsKey l k = false) : insertD l k v = l ++ [(k, v)] := by
  simp [insertD, h]

/-- The assigned key is present after assignment. -/
theorem containsKey_insertD_self {α : Type} (l : List (String × α)) (k : String) (v : α) :
    containsKey (insertD l k v) k = true := by
  by_cases h : containsKey l k = true
  · rw [containsKey_iff] at h ⊢
    obtain ⟨p, hp, hk⟩ := h
    simp only [insertD]
    rw [if_pos]
    · refine ⟨(k, v), ?_, rfl⟩
      have himg : (fun p => if p.1 = k then (k, v) else p) p = (k, v) := by simp [hk]
      exact List.mem_map.mpr ⟨p, hp, himg⟩
    · rw [containsKey_iff]
      exact ⟨p, hp, hk⟩
  · rw [Bool.not_eq_true] at h
    rw [insertD_of_not_contains l k v h, containsKey_append_single]
    simp

/-- Assignment never removes a key. -/
theorem containsKey_insertD_of {α : Type} (l : List (String × α)) (k k' : String) (v : α)
    (h : containsKey l k' = true) : containsKey (insertD l k v) k' = true := by
  by_cases hc : containsKey l k = true
  · rw [containsKey_iff] at h ⊢
    obtain ⟨p, hp, hk'⟩ := h
    simp only [insertD]
    rw [if_pos hc]
    by_cases hpk : p.1 = k
    · have himg : (fun p => if p.1 = k then (k, v) else p) p = (k, v) := by simp [hpk]
      refine ⟨(k, v), List.mem_map.mpr ⟨p, hp, himg⟩, ?_⟩
      show k = k'
      rw [← hpk]
      exact hk'
    · have himg : (fun p => if p.1 = k then (k, v) else p) p = p := by simp [hpk]
      exact ⟨p, List.mem_map.mpr ⟨p, hp, himg⟩, hk'⟩
  · rw [Bool.not_eq_true] at hc
    rw [insertD_of_not_contains l k v hc, containsKey_append_single, h]
    rfl

/-- Keys present in the accumulator survive the rest of the conversion
loop (Loyverse table). -/
theorem convertAux_contains_loy (m : PosMapping) (items : List (String × MenuItem)) :
    ∀ acc k, containsKey acc.1 k = true → containsKey (convertAux m acc items).1 k = true := by
  induction items with
  | nil => intro acc k h; simpa [convertAux] using h
  | cons p rest ih =>
    intro acc k h
    rcases p with ⟨s, it⟩
    simp only [convertAux]
    refine ih _ _ ?_
    simp only [convertStep]
    exact containsKey_insertD_of _ _ _ _ h

/-- Keys present in the accumulator survive the rest of the conversion
loop (Odoo table). -/
theorem convertAux_contains_odoo (m : PosMapping) (items : List (String × MenuItem)) :
    ∀ acc k, containsKey acc.2 k = true → containsKey (convertAux m acc items).2 k = true := by
  induction items with
  | nil => intro acc k h; simpa [convertAux] using h
  | cons p rest ih =>
    intro acc k h
    rcases p with ⟨s, it⟩
    simp only [convertAux]
    refine ih _ _ ?_
    simp only [convertStep]
    exact containsKey_insertD_of _ _ _ _ h

/-- Every processed item leaves its computed identifiers present in both
output tables. -/
theorem convertAux_mem_contains (m : PosMapping) (items : List (String × MenuItem)) :
    ∀ acc slug it, (slug, it) ∈ items →
      containsKey (convertAux m acc items).1 (loyverse_id m slug) = true ∧
      containsKey (convertAux m acc items).2 (odoo_id m slug) = true := by
  induction items with
  | nil => intro acc slug it h; exact absurd h (List.not_mem_nil _)
  | cons p rest ih =>
    intro acc slug it h
    rcases p with ⟨s, it'⟩
    rcases List.mem_cons.mp h with heq | hmem
    · injection heq with h1 h2
      subst h1
      subst h2
      constructor
      · simp only [convertAux]
        refine convertAux_contains_loy m rest _ _ ?_
        simp only [convertStep]
        exact containsKey_insertD_self _ _ _
      · simp only [convertAux]
        refine convertAux_contains_odoo m rest _ _ ?_
        simp only [convertStep]
        exact containsKey_insertD_self _ _ _
    · simp only [convertAux]
      exact ih _ slug it hmem

/-! ## Claim C3 -/

/-- Claim C3: for every item in the map and each POS system, the external
identifier used for the item is the explicit mapping entry when present,
else the fixed brand fallback, and a record under that identifier appears
in the system's output table. -/
theorem claim3_external_identifier :
    ∀ m items slug it, (slug, it) ∈ items →
      containsKey (convert_to_pos_format m items).1 (loyverse_id m slug) = true ∧
      containsKey (convert_to_pos_format m items).2 (odoo_id m slug) = true ∧
      loyverse_id m slug = (match alookup m.loyverse slug with
        | some x => x
        | none => "omg-sushi-" ++ slug) ∧
      odoo_id m slug = (match alookup m.odoo slug with
        | some x => x
        | none => "omg-sushi-" ++ slug) := by
  intro m items slug it h
  obtain ⟨h1, h2⟩ := convertAux_mem_contains m items ([], []) slug it h
  refine ⟨h1, h2, ?_, ?_⟩
  · cases hl : alookup m.loyverse slug <;> simp [loyverse_id, hl]
  · cases hl : alookup m.odoo slug <;> simp [odoo_id, hl]

/-- Witness for C3: one mapped slug under a mapping with an explicit
Loyverse entry and no Odoo entry. -/
theorem claim3_witness :
    ("spicy-tuna", cItem) ∈ [("spicy-tuna", cItem)] ∧
    (containsKey (convert_to_pos_format c3m [("spicy-tuna", cItem)]).1
        (loyverse_id c3m "spicy-tuna") = true ∧
     containsKey (convert_to_pos_format c3m [("spicy-tuna", cItem)]).2
        (odoo_id c3m "spicy-tuna") = true ∧
     loyverse_id c3m "spicy-tuna" = (match alookup c3m.loyverse "spicy-tuna" with
        | some x => x
        | none => "omg-sushi-" ++ "spicy-tuna") ∧
     odoo_id c3m "spicy-tuna" = (match alookup c3m.odoo "spicy-tuna" with
        | some x => x
        | none => "omg-sushi-" ++ "spicy-tuna")) :=
  ⟨List.mem_singleton.mpr rfl,
   claim3_external_identifier c3m [("spicy-tuna", cItem)] "spicy-tuna" cItem
     (List.mem_singleton.mpr rfl)⟩

/-! ## Claim C4 -/

/-- Claim C4, counterexample: a mapping that sends the two slugs `a` and
`b` to the same external identifier `x` makes the second record overwrite
the first in the Loyverse dict, so two input items yield one output
record - an item is dropped at the transform stage. -/
theorem claim4_counterexample :
    (convert_to_pos_format c4m [("a", cItem), ("b", cItem)]).1.length = 1 ∧
    ([("a", cItem), ("b", cItem)] : List (String × MenuItem)).length = 2 := by
  constructor
  · rfl
  · rfl

/-- The conversion loop grows the Loyverse table by one binding per item
as long as the computed identifiers are fresh and mutually distinct. -/
theorem convertAux_length_loy (m : PosMapping) :
    ∀ (items : List (String × MenuItem)) (acc : PosItems),
      (items.map (fun p => loyverse_id m p.1)).Nodup →
      (∀ k ∈ items.map (fun p => loyverse_id m p.1), containsKey acc.1 k = false) →
      (convertAux m acc items).1.length = acc.1.length + items.length := by
  intro items
  induction items with
  | nil => intro acc _ _; simp [convertAux]
  | cons p rest ih =>
    intro acc hnd hfresh
    rcases p with ⟨s, it⟩
    simp only [convertAux]
    have hmemh : loyverse_id m s ∈ ((s, it) :: rest).map (fun p => loyverse_id m p.1) := by
      simp only [List.map_cons, List.mem_cons]
      exact Or.inl trivial
    have hk : containsKey acc.1 (loyverse_id m s) = false := hfresh _ hmemh
    have hstep1 : (convertStep m acc s it).1 =
        acc.1 ++ [(loyverse_id m s, loyverseRecordOf it (loyverse_id m s) s)] := by
      simp only [convertStep]
      exact insertD_of_not_contains _ _ _ hk
    have hnd2 : (loyverse_id m s :: rest.map (fun p => loyverse_id m p.1)).Nodup := by
      simpa using hnd
    obtain ⟨hhead, hnd'⟩ := List.nodup_cons.mp hnd2
    rw [ih (convertStep m acc s it) hnd' ?fresh]
    · rw [hstep1]
      simp only [List.length_append, List.length_cons, List.length_nil]
      omega
    case fresh =>
      intro k hkmem
      have hmem' : k ∈ ((s, it) :: rest).map (fun p => loyverse_id m p.1) := by
        simp only [List.map_cons, List.mem_cons]
        exact Or.inr hkmem
      rw [hstep1, containsKey_append_single]
      have h1 : containsKey acc.1 k = false := hfresh k hmem'
      have h2 : loyverse_id m s ≠ k := by
        intro hkk
        exact hhead (hkk ▸ hkmem)
      simp [h1, h2]

/-- The conversion loop grows the Odoo table by one binding per item as
long as the computed identifiers are fresh and mutually distinct. -/
theorem convertAux_length_odoo (m : PosMapping) :
    ∀ (items : List (String × MenuItem)) (acc : PosItems),
      (items.map (fun p => odoo_id m p.1)).Nodup →
      (∀ k ∈ items.map (fun p => odoo_id m p.1), containsKey acc.2 k = false) →
      (convertAux m acc items).2.length = acc.2.length + items.length := by
  intro items
  induction items with
  | nil => intro acc _ _; simp [convertAux]
  | cons p rest ih =>
    intro acc hnd hfresh
    rcases p with ⟨s, it⟩
    simp only [convertAux]
    have hmemh : odoo_id m s ∈ ((s, it) :: rest).map (fun p => odoo_id m p.1) := by
      simp only [List.map_cons, List.mem_cons]
      exact Or.inl trivial
    have hk : containsKey acc.2 (odoo_id m s) = false := hfresh _ hmemh
    have hstep2 : (convertStep m acc s it).2 =
        acc.2 ++ [(odoo_id m s, odooRecordOf it (odoo_id m s) s)] := by
      simp only [convertStep]
      exact insertD_of_not_contains _ _ _ hk
    have hnd2 : (odoo_id m s :: rest.map (fun p => odoo_id m p.1)).Nodup := by
      simpa using hnd
    obtain ⟨hhead, hnd'⟩ := List.nodup_cons.mp hnd2
    rw [ih (convertStep m acc s it) hnd' ?fresh]
    · rw [hstep2]
      simp only [List.length_append, List.length_cons, List.length_nil]
      omega
    case fresh =>
      intro k hkmem
      have hmem' : k ∈ ((s, it) :: rest).map (fun p => odoo_id m p.1) := by
        simp only [List.map_cons, List.mem_cons]
        exact Or.inr hkmem
      rw [hstep2, containsKey_append_single]
      have h1 : containsKey acc.2 k = false := hfresh k hmem'
      have h2 : odoo_id m s ≠ k := by
        intro hkk
        exact hhead (hkk ▸ hkmem)
      simp [h1, h2]

/-- Claim C4, amended: the transformer never raises - an unmapped item
gets a generated identifier - and it emits exactly one record per input
item whenever the computed identifiers of the items are pairwise distinct
for the system; when identifiers collide (possible only through explicit
mapping entries), later records overwrite earlier ones in the output
dict. -/
theorem claim4_amended_one_record_per_item :
    ∀ m items,
      ((items.map (fun p => loyverse_id m p.1)).Nodup →
        (convert_to_pos_format m items).1.length = items.length) ∧
      ((items.map (fun p => odoo_id m p.1)).Nodup →
        (convert_to_pos_format m items).2.length = items.length) := by
  intro m items
  constructor
  · intro h
    have hlen := convertAux_length_loy m items ([], []) h (fun k _ => rfl)
    simpa [convert_to_pos_format] using hlen
  · intro h
    have hlen := convertAux_length_odoo m items ([], []) h (fun k _ => rfl)
    simpa [convert_to_pos_format] using hlen

/-- Witness for C4 (amended) with the empty mapping: fallback identifiers
of distinct slugs are distinct, and both tables carry two records for two
items. -/
theorem claim4_witness :
    (([("a", cItem), ("b", cItem)].map (fun p => loyverse_id c4m0 p.1)).Nodup ∧
      (convert_to_pos_format c4m0 [("a", cItem), ("b", cItem)]).1.length = 2) ∧
    (([("a", cItem), ("b", cItem)].map (fun p => odoo_id c4m0 p.1)).Nodup ∧
      (convert_to_pos_format c4m0 [("a", cItem), ("b", cItem)]).2.length = 2) := by
  have h := claim4_amended_one_record_per_item c4m0 [("a", cItem), ("b", cItem)]
  have hnd1 : (([("a", cItem), ("b", cItem)]).map (fun p => loyverse_id c4m0 p.1)).Nodup := by
    simp [loyverse_id, alookup, c4m0]
  have hnd2 : (([("a", cItem), ("b", cItem)]).map (fun p => odoo_id c4m0 p.1)).Nodup := by
    simp [odoo_id, alookup, c4m0]
  exact ⟨⟨hnd1, h.1 hnd1⟩, ⟨hnd2, h.2 hnd2⟩⟩

/-! ## Claim C10 -/

/-- Claim C10: for a slug with no explicit entry in either table, the
Loyverse and Odoo fallback identifiers coincide: both are the fixed brand
string followed by the slug. -/
theorem claim10_fallback_ids_agree :
    ∀ m slug, alookup m.loyverse slug = none → alookup m.odoo slug = none →
      loyverse_id m slug = odoo_id m slug ∧
      loyverse_id m slug = "omg-sushi-" ++ slug := by
  intro m slug h1 h2
  simp [loyverse_id, odoo_id, h1, h2]

/-- Witness for C10 at the empty mapping and the scenario slug. -/
theorem claim10_witness :
    alookup c4m0.loyverse "spicy-tuna" = none ∧
    alookup c4m0.odoo "spicy-tuna" = none ∧
    (loyverse_id c4m0 "spicy-tuna" = odoo_id c4m0 "spicy-tuna" ∧
     loyverse_id c4m0 "spicy-tuna" = "omg-sushi-" ++ "spicy-tuna") :=
  ⟨rfl, rfl, claim10_fallback_ids_agree c4m0 "spicy-tuna" rfl rfl⟩

/-! ## Claim C6 -/

/-- Claim C6: with no valid menu items the run stops after logging the
warning: no output file is written (no combined dumps, no per-system
files, no report), and, the function being total, no exception
propagates. -/
theorem claim6_empty_run_writes_nothing :
    ∀ m, run_conversion m [] = ([], ["No menu items found"]) := by
  intro m
  rfl

/-! ## Digit-string lemmas -/

/-- Digit characters decode back to their digit. -/
theorem charDigit_digitChar : ∀ d < 10, charDigit (digitChar d) = d := by decide

/-- Digit characters are digits. -/
theorem digitChar_isDigit : ∀ d < 10, (digitChar d).isDigit = true := by decide

/-- The digit string of a natural number is never empty. -/
theorem natDigits_ne_nil (n : Nat) : natDigits n ≠ [] := by
  unfold natDigits
  split
  · simp
  · rename_i h
    simp [Nat.digits_eq_nil_iff_eq_zero, h]

/-- Every character of a digit string is a digit. -/
theorem natDigits_all_digits (n : Nat) : ∀ c ∈ natDigits n, c.isDigit = true := by
  intro c hc
  unfold natDigits at hc
  split at hc
  · simp only [List.mem_singleton] at hc
    subst hc
    decide
  · rw [List.mem_reverse] at hc
    obtain ⟨d, hd, rfl⟩ := List.mem_map.mp hc
    exact digitChar_isDigit d (Nat.digits_lt_base (by norm_num) hd)

/-- Fold of the decimal accumulator from an arbitrary start. -/
theorem valNat_accum (cs : List Char) : ∀ a : Nat,
    cs.foldl (fun a c => 10 * a + charDigit c) a = a * 10 ^ cs.length + valNat cs := by
  induction cs with
  | nil => intro a; simp [valNat]
  | cons c t ih =>
    intro a
    simp only [List.foldl_cons, List.length_cons, valNat]
    rw [ih (10 * a + charDigit c), ih (10 * 0 + charDigit c)]
    ring

/-- Splitting a digit string splits its value by a power of ten. -/
theorem valNat_append (xs ys : List Char) :
    valNat (xs ++ ys) = valNat xs * 10 ^ ys.length + valNat ys := by
  unfold valNat
  rw [List.foldl_append]
  exact valNat_accum ys _

/-- The decimal value of rendered digits. -/
theorem valNat_ofDigits (ds : List Nat) (h : ∀ d ∈ ds, d < 10) :
    valNat ((ds.map digitChar).reverse) = Nat.ofDigits 10 ds := by
  induction ds with
  | nil => simp [valNat, Nat.ofDigits_nil]
  | cons d t ih =>
    have hd : d < 10 := h d (by simp)
    have ht : ∀ x ∈ t, x < 10 := fun x hx => h x (by simp [hx])
    simp only [List.map_cons, List.reverse_cons]
    rw [valNat_append, ih ht, Nat.ofDigits_cons]
    have hone : valNat [digitChar d] = d := by
      show 10 * 0 + charDigit (digitChar d) = d
      rw [charDigit_digitChar d hd]
      omega
    rw [hone]
    simp
    ring

/-- Round trip: the value of the digit string of `n` is `n`. -/
theorem valNat_natDigits (n : Nat) : valNat (natDigits n) = n := by
  unfold natDigits
  split
  · rename_i h
    subst h
    decide
  · rw [valNat_ofDigits (Nat.digits 10 n) (fun d hd => Nat.digits_lt_base (by norm_num) hd),
      Nat.ofDigits_digits]

/-- Leading zeros do not change the value. -/
theorem valNat_replicate_zero (k : Nat) (cs : List Char) :
    valNat (List.replicate k '0' ++ cs) = valNat cs := by
  induction k with
  | zero => simp
  | succ j ih =>
    have h0 : ∀ l, valNat ('0' :: l) = valNat l := fun l => rfl
    rw [List.replicate_succ, List.cons_append, h0, ih]

/-- Padding does not change the value. -/
theorem valNat_padZeros (k : Nat) (cs : List Char) : valNat (padZeros k cs) = valNat cs :=
  valNat_replicate_zero _ _

/-- Padding a digit string keeps it a digit string. -/
theorem padZeros_all_digits (k : Nat) (cs : List Char) (h : ∀ c ∈ cs, c.isDigit = true) :
    ∀ c ∈ padZeros k cs, c.isDigit = true := by
  intro c hc
  rcases List.mem_append.mp hc with h1 | h2
  · have := List.eq_of_mem_replicate h1
    subst this
    decide
  · exact h c h2

/-- Padded length. -/
theorem padZeros_length (k : Nat) (cs : List Char) :
    (padZeros k cs).length = max k cs.length := by
  simp only [padZeros, List.length_append, List.length_replicate]
  omega

/-! ## Consumption lemmas for the scanners -/

/-- An expected literal consumes exactly itself. -/
theorem expectLit_append (pat rest : List Char) : expectLit pat (pat ++ rest) = some rest := by
  induction pat with
  | nil => rfl
  | cons p ps ih => simp [expectLit, ih]

/-- Splitting at a character absent from the prefix. -/
theorem splitAtChar_append (c : Char) (s rest : List Char) (h : c ∉ s) :
    splitAtChar c (s ++ c :: rest) = some (s, rest) := by
  induction s with
  | nil => simp [splitAtChar]
  | cons x t ih =>
    simp only [List.mem_cons, not_or] at h
    obtain ⟨h1, h2⟩ := h
    have hxc : ¬ x = c := fun hh => h1 hh.symm
    simp [splitAtChar, hxc, ih h2]

/-- A numeric break is in particular not a digit. -/
theorem headNotDigit_of_numBreak (rest : List Char) (h : numBreak rest = true) :
    headNotDigit rest = true := by
  cases rest with
  | nil => rfl
  | cons c t =>
    simp only [numBreak, Bool.not_eq_true', Bool.or_eq_false_iff] at h
    simp [headNotDigit, h.1]

/-- A digit run followed by a non-digit scans as exactly the run. -/
theorem spanDigits_append (ds rest : List Char) (hd : ∀ c ∈ ds, c.isDigit = true)
    (hr : headNotDigit rest = true) : spanDigits (ds ++ rest) = (ds, rest) := by
  induction ds with
  | nil =>
    cases rest with
    | nil => rfl
    | cons c t =>
      simp only [headNotDigit, Bool.not_eq_true'] at hr
      simp [spanDigits, hr]
  | cons c t ih =>
    have hc : c.isDigit = true := hd c (by simp)
    have ht : ∀ x ∈ t, x.isDigit = true := fun x hx => hd x (by simp [hx])
    have hrec := ih ht
    have h1 : (t ++ rest).takeWhile Char.isDigit = t := congrArg Prod.fst hrec
    have h2 : (t ++ rest).dropWhile Char.isDigit = rest := congrArg Prod.snd hrec
    simp [spanDigits, List.takeWhile_cons, List.dropWhile_cons, hc, h1, h2]

/-- A decimal-representable rational has a successful integrality
exponent search. -/
theorem decExp_spec (q : Rat) (h : IsDecimalB q = true) :
    ∃ e, decExp q = some e ∧ (q * 10 ^ e).den = 1 := by
  have hmem : q.den ∈ List.range (q.den + 1) := by simp
  have hex : ∃ x ∈ List.range (q.den + 1), ((q * 10 ^ x).den == 1) = true :=
    ⟨q.den, hmem, by simpa [IsDecimalB] using h⟩
  have hsome : ((List.range (q.den + 1)).find? (fun e => (q * 10 ^ e).den == 1)).isSome :=
    List.find?_isSome.mpr hex
  obtain ⟨e, he⟩ := Option.isSome_iff_exists.mp hsome
  refine ⟨e, he, ?_⟩
  have hp := List.find?_some he
  simpa using hp

/-- Reassemble a decimal-representable rational from its scaled
numerator. -/
theorem rat_decomp (q : Rat) (e : Nat) (h : (q * 10 ^ e).den = 1) :
    ((q * 10 ^ e).num : ℚ) / 10 ^ e = q := by
  have h1 : ((q * 10 ^ e).num : ℚ) = q * 10 ^ e := (Rat.den_eq_one_iff _).mp h
  rw [h1]
  field_simp

theorem parseNum_eq_parseNumNat (cs : List Char) (h : ∀ t, cs ≠ '-' :: t) :
    parseNum cs = parseNumNat cs := by
  unfold parseNum
  split
  · rename_i t
    exact absurd rfl (h t)
  · rfl

theorem parseNumNat_digits (ipd rest : List Char)
    (hip : ∀ c ∈ ipd, c.isDigit = true) (hipne : ipd ≠ [])
    (hr : numBreak rest = true) :
    parseNumNat (ipd ++ rest) = some (.int (valNat ipd), rest) := by
  unfold parseNumNat
  rw [spanDigits_append ipd rest hip (headNotDigit_of_numBreak rest hr)]
  dsimp only
  rw [if_neg (by simp [hipne])]
  split
  · rename_i r2
    simp [numBreak] at hr
  · rfl

theorem parseNumNat_digits_dot (ipd fpd rest : List Char)
    (hip : ∀ c ∈ ipd, c.isDigit = true) (hipne : ipd ≠ [])
    (hfp : ∀ c ∈ fpd, c.isDigit = true) (hfpne : fpd ≠ [])
    (hr : headNotDigit rest = true) :
    parseNumNat (ipd ++ '.' :: (fpd ++ rest)) =
      some (.dec (((valNat ipd : Rat) * 10 ^ fpd.length + (valNat fpd : Rat)) /
        10 ^ fpd.length), rest) := by
  unfold parseNumNat
  rw [spanDigits_append ipd ('.' :: (fpd ++ rest)) hip rfl]
  dsimp only
  rw [if_neg (by simp [hipne])]
  split
  · rename_i r2 heq
    injection heq with h1 h2
    subst h2
    rw [spanDigits_append fpd rest hfp hr]
    dsimp only
    rw [if_neg (by simp [hfpne])]
  · rename_i hne
    exact absurd rfl (hne (fpd ++ rest))

theorem parseNum_neg_cons (cs1 : List Char) :
    parseNum ('-' :: cs1) = (match parseNumNat cs1 with
      | some (l, r) => some (l.neg, r)
      | none => none) := rfl

theorem renderDecCore_spec (a e : Nat) : ∃ ip fp,
    renderDecCore a e = ip ++ '.' :: fp ∧ (∀ c ∈ ip, c.isDigit = true) ∧
    (∀ c ∈ fp, c.isDigit = true) ∧ ip ≠ [] ∧ fp ≠ [] ∧
    ((valNat ip : ℚ) * 10 ^ fp.length + (valNat fp : ℚ)) / 10 ^ fp.length =
      (a : ℚ) / 10 ^ e := by
  obtain ⟨s, hs_def, hsd, hslen, hvs⟩ :
      ∃ s : List Char, s = padZeros (e + 1) (natDigits a) ∧
        (∀ c ∈ s, c.isDigit = true) ∧ e + 1 ≤ s.length ∧ valNat s = a := by
    refine ⟨padZeros (e + 1) (natDigits a), rfl,
      padZeros_all_digits _ _ (natDigits_all_digits a), ?_, ?_⟩
    · rw [padZeros_length]
      omega
    · rw [valNat_padZeros, valNat_natDigits]
  have heq : renderDecCore a e = s.take (s.length - e) ++ '.' ::
      (if e = 0 then ['0'] else s.drop (s.length - e)) := by
    rw [hs_def]
    rfl
  rcases Nat.eq_zero_or_pos e with he | he
  · subst he
    have htake : s.take (s.length - 0) = s := by simp [List.take_length]
    refine ⟨s, ['0'], ?_, hsd, ?_, ?_, by simp, ?_⟩
    · simpa [htake] using heq
    · intro c hc
      simp only [List.mem_singleton] at hc
      subst hc
      decide
    · exact List.ne_nil_of_length_pos (by omega)
    · have h0 : valNat ['0'] = 0 := rfl
      rw [hvs, h0]
      norm_num
  · have h0 : e ≠ 0 := by omega
    have hfl : (s.drop (s.length - e)).length = e := by
      rw [List.length_drop]
      omega
    refine ⟨s.take (s.length - e), s.drop (s.length - e), ?_, ?_, ?_, ?_, ?_, ?_⟩
    · simpa [h0] using heq
    · exact fun c hc => hsd c (List.take_subset _ _ hc)
    · exact fun c hc => hsd c (List.drop_subset _ _ hc)
    · apply List.ne_nil_of_length_pos
      rw [List.length_take]
      omega
    · apply List.ne_nil_of_length_pos
      omega
    · have hnat : valNat (s.take (s.length - e)) * 10 ^ e +
          valNat (s.drop (s.length - e)) = a := by
        have happ := valNat_append (s.take (s.length - e)) (s.drop (s.length - e))
        rw [List.take_append_drop, hvs, hfl] at happ
        exact happ.symm
      have hq : ((valNat (s.take (s.length - e)) : ℚ) * 10 ^ e +
          (valNat (s.drop (s.length - e)) : ℚ)) = (a : ℚ) := by
        exact_mod_cast congrArg (fun n : ℕ => (n : ℚ)) hnat
      rw [hfl, hq]

theorem digit_ne_minus (c : Char) (h : c.isDigit = true) : c ≠ '-' := by
  intro hc
  subst hc
  exact absurd h (by decide)

theorem parseNum_renderDec (m : Int) (e : Nat) (rest : List Char)
    (hr : headNotDigit rest = true) :
    parseNum ((renderDec m e).data ++ rest) = some (.dec ((m : ℚ) / 10 ^ e), rest) := by
  obtain ⟨ip, fp, hcore, hip, hfp, hipne, hfpne, hval⟩ := renderDecCore_spec m.natAbs e
  by_cases hm : m < 0
  · have hdata : (renderDec m e).data = '-' :: renderDecCore m.natAbs e := by
      unfold renderDec
      rw [if_pos hm]
      rfl
    have hassoc : (ip ++ '.' :: fp) ++ rest = ip ++ '.' :: (fp ++ rest) := by simp
    rw [hdata, hcore]
    show parseNum ('-' :: ((ip ++ '.' :: fp) ++ rest)) = _
    rw [parseNum_neg_cons, hassoc,
      parseNumNat_digits_dot ip fp rest hip hipne hfp hfpne hr]
    dsimp only [NumLit.neg]
    rw [hval]
    have habs : ((m.natAbs : ℕ) : ℚ) = -(m : ℚ) := by
      rw [Int.cast_natAbs]
      exact_mod_cast abs_of_neg hm
    rw [habs]
    congr 2
    ring_nf
  · have hm' : (0 : Int) ≤ m := not_lt.mp hm
    have hdata : (renderDec m e).data = renderDecCore m.natAbs e := by
      unfold renderDec
      rw [if_neg hm]
      rfl
    have hassoc : (ip ++ '.' :: fp) ++ rest = ip ++ '.' :: (fp ++ rest) := by simp
    rw [hdata, hcore, hassoc, parseNum_eq_parseNumNat,
      parseNumNat_digits_dot ip fp rest hip hipne hfp hfpne hr, hval]
    · have habs : ((m.natAbs : ℕ) : ℚ) = (m : ℚ) := by
        rw [Int.cast_natAbs]
        exact_mod_cast abs_of_nonneg hm'
      rw [habs]
    · intro t hcontra
      rcases ip with _ | ⟨c0, ipt⟩
      · exact hipne rfl
      · have hc0 : c0.isDigit = true := hip c0 (by simp)
        have hh : c0 = '-' := by
          have := congrArg (fun l => l.headD ' ') hcontra
          simpa using this
        exact digit_ne_minus c0 hc0 hh

theorem parseNum_renderRat (q : Rat) (rest : List Char) (hq : IsDecimalB q = true)
    (hr : headNotDigit rest = true) :
    parseNum ((renderRat q).data ++ rest) = some (.dec q, rest) := by
  obtain ⟨e, he, hden⟩ := decExp_spec q hq
  unfold renderRat
  rw [he]
  rw [parseNum_renderDec (q * 10 ^ e).num e rest hr, rat_decomp q e hden]

theorem parseNum_intStr (n : Int) (rest : List Char) (hr : numBreak rest = true) :
    parseNum ((intStr n).data ++ rest) = some (.int n, rest) := by
  by_cases hn : n < 0
  · have hdata : (intStr n).data = '-' :: natDigits n.natAbs := by
      unfold intStr
      rw [if_pos hn]
      rfl
    rw [hdata]
    show parseNum ('-' :: (natDigits n.natAbs ++ rest)) = _
    rw [parseNum_neg_cons,
      parseNumNat_digits (natDigits n.natAbs) rest (natDigits_all_digits _)
        (natDigits_ne_nil _) hr]
    dsimp only [NumLit.neg]
    rw [valNat_natDigits]
    have hcast : -((n.natAbs : ℕ) : Int) = n := by omega
    rw [hcast]
  · have hn' : (0 : Int) ≤ n := not_lt.mp hn
    have hdata : (intStr n).data = natDigits n.natAbs := by
      unfold intStr
      rw [if_neg hn]
      rfl
    rw [hdata, parseNum_eq_parseNumNat,
      parseNumNat_digits (natDigits n.natAbs) rest (natDigits_all_digits _)
        (natDigits_ne_nil _) hr, valNat_natDigits]
    · have hcast : ((n.natAbs : ℕ) : Int) = n := by omega
      rw [hcast]
    · intro t hcontra
      rcases hne : natDigits n.natAbs with _ | ⟨c0, dt⟩
      · exact natDigits_ne_nil _ hne
      · have hc0 : c0.isDigit = true := natDigits_all_digits _ c0 (by rw [hne]; simp)
        have hh : c0 = '-' := by
          rw [hne] at hcontra
          have := congrArg (fun l => l.headD ' ') hcontra
          simpa using this
        exact digit_ne_minus c0 hc0 hh

theorem parseNum_none (c : Char) (t : List Char) (h1 : c.isDigit = false)
    (h2 : c ≠ '-') : parseNum (c :: t) = none := by
  rw [parseNum_eq_parseNumNat]
  · unfold parseNumNat
    have hspan : spanDigits (c :: t) = ([], c :: t) := by
      simp [spanDigits, List.takeWhile_cons, List.dropWhile_cons, h1]
    rw [hspan]
    rfl
  · intro u hcontra
    injection hcontra with hc
    exact h2 hc

theorem strData_append (a b : String) : (a ++ b).data = a.data ++ b.data := rfl

theorem safeStrB_spec (s : String) (hs : safeStrB s = true) :
    s.data ≠ [] ∧ plainFirst (s.data.headD 'a') = true ∧
    (∀ c ∈ s.data, safeChar c = true) ∧
    s.data ≠ "true".data ∧ s.data ≠ "false".data ∧ s.data ≠ "null".data := by
  simp only [safeStrB, Bool.and_eq_true] at hs
  obtain ⟨⟨⟨⟨⟨h1, h2⟩, h3⟩, h4⟩, h5⟩, h6⟩ := hs
  refine ⟨?_, h2, List.all_eq_true.mp h3, ?_, ?_, ?_⟩
  · intro hd
    rw [hd] at h1
    exact absurd h1 (by decide)
  · intro hd
    rw [Bool.not_eq_eq_eq_not, Bool.not_true, beq_eq_false_iff_ne] at h4
    exact h4 hd
  · intro hd
    rw [Bool.not_eq_eq_eq_not, Bool.not_true, beq_eq_false_iff_ne] at h5
    exact h5 hd
  · intro hd
    rw [Bool.not_eq_eq_eq_not, Bool.not_true, beq_eq_false_iff_ne] at h6
    exact h6 hd

theorem safeStr_no_mem (s : String) (hs : safeStrB s = true) (c : Char)
    (hc : safeChar c = false) : c ∉ s.data := by
  intro hmem
  have := (safeStrB_spec s hs).2.2.1 c hmem
  rw [hc] at this
  exact absurd this (by decide)

theorem parseJStr_jsonStr (s : String) (hq : '"' ∉ s.data) (rest : List Char) :
    parseJStr ((jsonStr s).data ++ rest) = some (s, rest) := by
  have hdata : (jsonStr s).data ++ rest = '"' :: (s.data ++ '"' :: rest) := by
    simp [jsonStr, strData_append]
  rw [hdata]
  show (splitAtChar '"' (s.data ++ '"' :: rest)).map (fun pr => (⟨pr.1⟩, pr.2)) =
    some (s, rest)
  rw [splitAtChar_append '"' s.data rest hq]
  rfl

theorem digit_not_special (c : Char) (h : c.isDigit = true) :
    c ≠ '"' ∧ c ≠ 't' ∧ c ≠ 'f' ∧ c ≠ 'n' := by
  refine ⟨?_, ?_, ?_, ?_⟩ <;>
    exact fun hc => absurd h (by subst hc; decide)

theorem parseJVal_of_num (cs rest : List Char) (l : NumLit)
    (hp : parseNum cs = some (l, rest)) (hne : cs ≠ [])
    (hhead : ∀ c t, cs = c :: t → (c = '-' ∨ c.isDigit = true)) :
    parseJVal cs = some (l.toVal, rest) := by
  rcases hcs : cs with _ | ⟨c, t⟩
  · exact absurd hcs hne
  · subst hcs
    rcases hhead c t rfl with hc | hc
    · subst hc
      unfold parseJVal
      dsimp only
      rw [if_neg (by decide), if_neg (by decide), if_neg (by decide), if_neg (by decide), hp]
      rfl
    · obtain ⟨n1, n2, n3, n4⟩ := digit_not_special c hc
      unfold parseJVal
      dsimp only
      rw [if_neg n1, if_neg n2, if_neg n3, if_neg n4, hp]
      rfl

theorem intStr_head (n : Int) (c : Char) (t : List Char)
    (heq : (intStr n).data = c :: t) : c = '-' ∨ c.isDigit = true := by
  by_cases hn : n < 0
  · have hdata : (intStr n).data = '-' :: natDigits n.natAbs := by
      unfold intStr
      rw [if_pos hn]
      rfl
    rw [hdata] at heq
    injection heq with h1 _
    exact Or.inl h1.symm
  · have hdata : (intStr n).data = natDigits n.natAbs := by
      unfold intStr
      rw [if_neg hn]
      rfl
    rw [hdata] at heq
    exact Or.inr (natDigits_all_digits _ c (by rw [heq]; simp))

theorem intStr_chars (n : Int) : ∀ c ∈ (intStr n).data, c = '-' ∨ c.isDigit = true := by
  intro c hc
  by_cases hn : n < 0
  · have hdata : (intStr n).data = '-' :: natDigits n.natAbs := by
      unfold intStr
      rw [if_pos hn]
      rfl
    rw [hdata] at hc
    rcases List.mem_cons.mp hc with h | h
    · exact Or.inl h
    · exact Or.inr (natDigits_all_digits _ c h)
  · have hdata : (intStr n).data = natDigits n.natAbs := by
      unfold intStr
      rw [if_neg hn]
      rfl
    rw [hdata] at hc
    exact Or.inr (natDigits_all_digits _ c hc)

theorem renderDec_chars (m : Int) (e : Nat) :
    ∀ c ∈ (renderDec m e).data, c = '-' ∨ c = '.' ∨ c.isDigit = true := by
  intro c hc
  obtain ⟨ip, fp, hcore, hip, hfp, _, _, _⟩ := renderDecCore_spec m.natAbs e
  by_cases hm : m < 0
  · have hdata : (renderDec m e).data = '-' :: renderDecCore m.natAbs e := by
      unfold renderDec
      rw [if_pos hm]
      rfl
    rw [hdata, hcore] at hc
    rcases List.mem_cons.mp hc with h | h
    · exact Or.inl h
    · rcases List.mem_append.mp h with h2 | h2
      · exact Or.inr (Or.inr (hip c h2))
      · rcases List.mem_cons.mp h2 with h3 | h3
        · exact Or.inr (Or.inl h3)
        · exact Or.inr (Or.inr (hfp c h3))
  · have hdata : (renderDec m e).data = renderDecCore m.natAbs e := by
      unfold renderDec
      rw [if_neg hm]
      rfl
    rw [hdata, hcore] at hc
    rcases List.mem_append.mp hc with h2 | h2
    · exact Or.inr (Or.inr (hip c h2))
    · rcases List.mem_cons.mp h2 with h3 | h3
      · exact Or.inr (Or.inl h3)
      · exact Or.inr (Or.inr (hfp c h3))

theorem renderRat_chars (q : Rat) :
    ∀ c ∈ (renderRat q).data, c = '-' ∨ c = '.' ∨ c.isDigit = true := by
  intro c hc
  unfold renderRat at hc
  rcases hde : decExp q with _ | e
  · rw [hde] at hc
    simp only [List.mem_singleton] at hc
    subst hc
    exact Or.inr (Or.inr (by decide))
  · rw [hde] at hc
    exact renderDec_chars _ e c hc

theorem renderRat_head (q : Rat) (c : Char) (t : List Char)
    (heq : (renderRat q).data = c :: t) : c = '-' ∨ c.isDigit = true := by
  have hc : c ∈ (renderRat q).data := by rw [heq]; simp
  rcases renderRat_chars q c hc with h | h | h
  · exact Or.inl h
  · -- head cannot be the dot: the dot never leads
    exfalso
    subst h
    unfold renderRat at heq
    rcases hde : decExp q with _ | e
    · rw [hde] at heq
      have hh : ('.' : Char) = '0' := by
        have h' := congrArg (fun l => l.headD ' ') heq.symm
        simpa using h'
      exact absurd hh (by decide)
    · rw [hde] at heq
      obtain ⟨ip, fp, hcore, hip, hfp, hipne, _, _⟩ := renderDecCore_spec (q * 10 ^ e).num.natAbs e
      by_cases hm : (q * 10 ^ e).num < 0
      · have hdata : (renderDec (q * 10 ^ e).num e).data =
            '-' :: renderDecCore (q * 10 ^ e).num.natAbs e := by
          unfold renderDec
          rw [if_pos hm]
          rfl
        rw [hdata] at heq
        injection heq with h1 _
        exact absurd h1.symm (by decide)
      · have hdata : (renderDec (q * 10 ^ e).num e).data =
            renderDecCore (q * 10 ^ e).num.natAbs e := by
          unfold renderDec
          rw [if_neg hm]
          rfl
        rw [hdata, hcore] at heq
        rcases ip with _ | ⟨c0, ipt⟩
        · exact hipne rfl
        · rw [List.cons_append] at heq
          injection heq with h1 _
          have : c0.isDigit = true := hip c0 (by simp)
          rw [h1] at this
          exact absurd this (by decide)
  · exact Or.inr h


theorem intStr_ne_nil (n : Int) : (intStr n).data ≠ [] := by
  by_cases hn : n < 0
  · have hdata : (intStr n).data = '-' :: natDigits n.natAbs := by
      unfold intStr
      rw [if_pos hn]
      rfl
    rw [hdata]
    simp
  · have hdata : (intStr n).data = natDigits n.natAbs := by
      unfold intStr
      rw [if_neg hn]
      rfl
    rw [hdata]
    exact natDigits_ne_nil _

theorem renderRat_ne_nil (q : Rat) : (renderRat q).data ≠ [] := by
  unfold renderRat
  rcases hde : decExp q with _ | e
  · dsimp only
    decide
  · obtain ⟨ip, fp, hcore, _, _, hipne, _, _⟩ := renderDecCore_spec (q * 10 ^ e).num.natAbs e
    by_cases hm : (q * 10 ^ e).num < 0
    · have hdata : (renderDec (q * 10 ^ e).num e).data =
          '-' :: renderDecCore (q * 10 ^ e).num.natAbs e := by
        unfold renderDec
        rw [if_pos hm]
        rfl
      rw [hdata]
      simp
    · have hdata : (renderDec (q * 10 ^ e).num e).data =
          renderDecCore (q * 10 ^ e).num.natAbs e := by
        unfold renderDec
        rw [if_neg hm]
        rfl
      rw [hdata, hcore]
      rcases ip with _ | ⟨c0, ipt⟩
      · exact absurd rfl hipne
      · simp

theorem parseJVal_jsonVal (v : Value) (rest : List Char) (hs : safeValueB v = true)
    (hb : numBreak rest = true) :
    parseJVal ((jsonVal v).data ++ rest) = some (v, rest) := by
  cases v with
  | vstr s =>
    have hq : '"' ∉ s.data := by
      rcases (by simpa [safeValueB] using hs : s = "" ∨ safeStrB s = true) with h | h
      · subst h
        simp
      · exact safeStr_no_mem s h '"' (by decide)
    have hdata : (jsonVal (.vstr s)).data ++ rest = '"' :: (s.data ++ '"' :: rest) := by
      simp [jsonVal, jsonStr, strData_append]
    rw [hdata]
    unfold parseJVal
    dsimp only
    rw [if_pos rfl]
    have hps : parseJStr ('"' :: (s.data ++ '"' :: rest)) = some (s, rest) := by
      have h2 : (jsonStr s).data ++ rest = '"' :: (s.data ++ '"' :: rest) := by
        simp [jsonStr, strData_append]
      rw [← h2]
      exact parseJStr_jsonStr s hq rest
    rw [hps]
    rfl
  | vint n =>
    have hne : (intStr n).data ++ rest ≠ [] :=
      fun hcon => intStr_ne_nil n (List.append_eq_nil.mp hcon).1
    have hhead : ∀ c t, (intStr n).data ++ rest = c :: t → (c = '-' ∨ c.isDigit = true) := by
      intro c t heq
      rcases hd : (intStr n).data with _ | ⟨c0, t0⟩
      · exact absurd hd (intStr_ne_nil n)
      · rw [hd, List.cons_append] at heq
        injection heq with h1 _
        subst h1
        exact intStr_head n c0 t0 hd
    exact parseJVal_of_num _ rest (NumLit.int n) (parseNum_intStr n rest hb) hne hhead
  | vfloat q =>
    have hdec : IsDecimalB q = true := by simpa [safeValueB] using hs
    have hne : (renderRat q).data ++ rest ≠ [] :=
      fun hcon => renderRat_ne_nil q (List.append_eq_nil.mp hcon).1
    have hhead : ∀ c t, (renderRat q).data ++ rest = c :: t → (c = '-' ∨ c.isDigit = true) := by
      intro c t heq
      rcases hd : (renderRat q).data with _ | ⟨c0, t0⟩
      · exact absurd hd (renderRat_ne_nil q)
      · rw [hd, List.cons_append] at heq
        injection heq with h1 _
        subst h1
        exact renderRat_head q c0 t0 hd
    exact parseJVal_of_num _ rest (NumLit.dec q)
      (parseNum_renderRat q rest hdec (headNotDigit_of_numBreak rest hb)) hne hhead
  | vbool b =>
    cases b with
    | true =>
      have hdata : (jsonVal (.vbool true)).data ++ rest = 't' :: ("rue".data ++ rest) := rfl
      rw [hdata]
      unfold parseJVal
      dsimp only
      rw [if_neg (by decide), if_pos rfl]
      have he : expectLit "true".data ('t' :: ("rue".data ++ rest)) = some rest := by
        have h2 : 't' :: ("rue".data ++ rest) = "true".data ++ rest := rfl
        rw [h2]
        exact expectLit_append _ _
      rw [he]
      rfl
    | false =>
      have hdata : (jsonVal (.vbool false)).data ++ rest = 'f' :: ("alse".data ++ rest) := rfl
      rw [hdata]
      unfold parseJVal
      dsimp only
      rw [if_neg (by decide), if_neg (by decide), if_pos rfl]
      have he : expectLit "false".data ('f' :: ("alse".data ++ rest)) = some rest := by
        have h2 : 'f' :: ("alse".data ++ rest) = "false".data ++ rest := rfl
        rw [h2]
        exact expectLit_append _ _
      rw [he]
      rfl
  | vnone =>
    have hdata : (jsonVal .vnone).data ++ rest = 'n' :: ("ull".data ++ rest) := rfl
    rw [hdata]
    unfold parseJVal
    dsimp only
    rw [if_neg (by decide), if_neg (by decide), if_neg (by decide), if_pos rfl]
    have he : expectLit "null".data ('n' :: ("ull".data ++ rest)) = some rest := by
      have h2 : 'n' :: ("ull".data ++ rest) = "null".data ++ rest := rfl
      rw [h2]
      exact expectLit_append _ _
    rw [he]
    rfl

theorem yamlScalar_yamlVal (v : Value) (hs : safeValueB v = true) :
    yamlScalar ((yamlVal v).data) = v := by
  cases v with
  | vstr s =>
    by_cases hse : s = ""
    · subst hse
      decide
    · have hsafe : safeStrB s = true := by
        have h' : (s == "" || safeStrB s) = true := by simpa [safeValueB] using hs
        rcases Bool.or_eq_true_iff.mp h' with h | h
        · exact absurd (by simpa using h) hse
        · exact h
      obtain ⟨hne, hpf, hall, ht, hf, hn⟩ := safeStrB_spec s hsafe
      have hdata : (yamlVal (.vstr s)).data = s.data := by
        unfold yamlVal
        dsimp only
        rw [if_neg hse]
      rw [hdata]
      unfold yamlScalar
      have hnone : parseNumFull s.data = none := by
        rcases hd : s.data with _ | ⟨c0, t0⟩
        · exact absurd hd hne
        · have hpf' : plainFirst c0 = true := by
            rw [hd] at hpf
            simpa using hpf
          simp only [plainFirst, Bool.and_eq_true, Bool.not_eq_true', bne_iff_ne, ne_eq] at hpf'
          unfold parseNumFull
          rw [parseNum_none c0 t0 hpf'.1.1.1 hpf'.1.1.2]
      rw [hnone]
      have hq2 : s.data ≠ ['\x27', '\x27'] := by
        intro hcon
        rw [hcon] at hpf
        exact absurd hpf (by decide)
      rw [if_neg ht, if_neg hf, if_neg hn, if_neg hq2]
  | vint n =>
    have hdata : (yamlVal (.vint n)).data = (intStr n).data := rfl
    rw [hdata]
    unfold yamlScalar
    have hfull : parseNumFull ((intStr n).data) = some (.int n) := by
      unfold parseNumFull
      have h1 := parseNum_intStr n [] rfl
      rw [List.append_nil] at h1
      rw [h1]
    rw [hfull]
    rfl
  | vfloat q =>
    have hdec : IsDecimalB q = true := by simpa [safeValueB] using hs
    have hdata : (yamlVal (.vfloat q)).data = (renderRat q).data := rfl
    rw [hdata]
    unfold yamlScalar
    have hfull : parseNumFull ((renderRat q).data) = some (.dec q) := by
      unfold parseNumFull
      have h1 := parseNum_renderRat q [] hdec rfl
      rw [List.append_nil] at h1
      rw [h1]
    rw [hfull]
    rfl
  | vbool b => cases b <;> decide
  | vnone => decide

theorem yamlVal_no_newline (v : Value) (hs : safeValueB v = true) :
    '\n' ∉ (yamlVal v).data := by
  cases v with
  | vstr s =>
    by_cases hse : s = ""
    · subst hse
      decide
    · have hsafe : safeStrB s = true := by
        have h' : (s == "" || safeStrB s) = true := by simpa [safeValueB] using hs
        rcases Bool.or_eq_true_iff.mp h' with h | h
        · exact absurd (by simpa using h) hse
        · exact h
      have hdata : (yamlVal (.vstr s)).data = s.data := by
        unfold yamlVal
        dsimp only
        rw [if_neg hse]
      rw [hdata]
      exact safeStr_no_mem s hsafe '\n' (by decide)
  | vint n =>
    intro hmem
    rcases intStr_chars n '\n' hmem with h | h
    · exact absurd h (by decide)
    · exact absurd h (by decide)
  | vfloat q =>
    intro hmem
    rcases renderRat_chars q '\n' hmem with h | h | h
    · exact absurd h (by decide)
    · exact absurd h (by decide)
    · exact absurd h (by decide)
  | vbool b => cases b <;> decide
  | vnone => decide

theorem renderRat_no_newline (q : Rat) : '\n' ∉ (renderRat q).data := by
  intro hmem
  rcases renderRat_chars q '\n' hmem with h | h | h
  · exact absurd h (by decide)
  · exact absurd h (by decide)
  · exact absurd h (by decide)

theorem nb_price : ∀ X : List Char, numBreak (",\"price\":".data ++ X) = true :=
  fun _ => rfl

theorem nb_list_price : ∀ X : List Char, numBreak (",\"list_price\":".data ++ X) = true :=
  fun _ => rfl

theorem nb_category : ∀ X : List Char, numBreak (",\"category\":".data ++ X) = true :=
  fun _ => rfl

theorem nb_categ_id : ∀ X : List Char, numBreak (",\"categ_id\":".data ++ X) = true :=
  fun _ => rfl

theorem nb_sku : ∀ X : List Char, numBreak (",\"sku\":".data ++ X) = true :=
  fun _ => rfl

theorem nb_default_code : ∀ X : List Char,
    numBreak (",\"default_code\":".data ++ X) = true := fun _ => rfl

theorem hnd_description : ∀ X : List Char,
    headNotDigit (",\"description\":".data ++ X) = true := fun _ => rfl

theorem safeLoyRecB_spec (r : LoyverseRecord) (h : safeLoyRecB r = true) :
    safeValueB r.name = true ∧ IsDecimalB r.price = true ∧
    safeValueB r.description = true ∧ safeStrB r.category = true ∧
    safeValueB r.available = true ∧ safeStrB r.sku = true ∧
    safeStrB r.hugo_slug = true := by
  simp only [safeLoyRecB, Bool.and_eq_true] at h
  obtain ⟨⟨⟨⟨⟨⟨h1, h2⟩, h3⟩, h4⟩, h5⟩, h6⟩, h7⟩ := h
  exact ⟨h1, h2, h3, h4, h5, h6, h7⟩

theorem safeOdooRecB_spec (r : OdooRecord) (h : safeOdooRecB r = true) :
    safeValueB r.name = true ∧ IsDecimalB r.list_price = true ∧
    safeValueB r.description = true ∧ safeStrB r.categ_id = true ∧
    safeValueB r.active = true ∧ safeStrB r.default_code = true ∧
    safeStrB r.hugo_slug = true := by
  simp only [safeOdooRecB, Bool.and_eq_true] at h
  obtain ⟨⟨⟨⟨⟨⟨h1, h2⟩, h3⟩, h4⟩, h5⟩, h6⟩, h7⟩ := h
  exact ⟨h1, h2, h3, h4, h5, h6, h7⟩

theorem parseJLoyRec_jsonLoyRec (r : LoyverseRecord) (rest : List Char)
    (hsafe : safeLoyRecB r = true) :
    parseJLoyRec ((jsonLoyRec r).data ++ rest) = some (r, rest) := by
  obtain ⟨h1, h2, h3, h4, h5, h6, h7⟩ := safeLoyRecB_spec r hsafe
  have hassoc : (jsonLoyRec r).data ++ rest =
      "\x7b\"name\":".data ++ ((jsonVal r.name).data ++ (",\"price\":".data ++
        ((renderRat r.price).data ++ (",\"description\":".data ++
        ((jsonVal r.description).data ++ (",\"category\":".data ++
        ((jsonStr r.category).data ++ (",\"available\":".data ++
        ((jsonVal r.available).data ++ (",\"sku\":".data ++
        ((jsonStr r.sku).data ++ (",\"hugo_slug\":".data ++
        ((jsonStr r.hugo_slug).data ++ (['\x7d'] ++ rest)))))))))))))) := by
    simp only [jsonLoyRec, strData_append, List.append_assoc]
  rw [hassoc]
  unfold parseJLoyRec
  rw [expectLit_append]
  dsimp only
  rw [parseJVal_jsonVal r.name _ h1 (nb_price _)]
  dsimp only
  rw [expectLit_append]
  dsimp only
  rw [parseNum_renderRat r.price _ h2 (hnd_description _)]
  dsimp only
  rw [expectLit_append]
  dsimp only
  rw [parseJVal_jsonVal r.description _ h3 (nb_category _)]
  dsimp only
  rw [expectLit_append]
  dsimp only
  rw [parseJStr_jsonStr r.category (safeStr_no_mem _ h4 '"' (by decide))]
  dsimp only
  rw [expectLit_append]
  dsimp only
  rw [parseJVal_jsonVal r.available _ h5 (nb_sku _)]
  dsimp only
  rw [expectLit_append]
  dsimp only
  rw [parseJStr_jsonStr r.sku (safeStr_no_mem _ h6 '"' (by decide))]
  dsimp only
  rw [expectLit_append]
  dsimp only
  rw [parseJStr_jsonStr r.hugo_slug (safeStr_no_mem _ h7 '"' (by decide))]
  dsimp only
  rw [expectLit_append]
  rfl

theorem parseJOdooRec_jsonOdooRec (r : OdooRecord) (rest : List Char)
    (hsafe : safeOdooRecB r = true) :
    parseJOdooRec ((jsonOdooRec r).data ++ rest) = some (r, rest) := by
  obtain ⟨h1, h2, h3, h4, h5, h6, h7⟩ := safeOdooRecB_spec r hsafe
  have hassoc : (jsonOdooRec r).data ++ rest =
      "\x7b\"name\":".data ++ ((jsonVal r.name).data ++ (",\"list_price\":".data ++
        ((renderRat r.list_price).data ++ (",\"description\":".data ++
        ((jsonVal r.description).data ++ (",\"categ_id\":".data ++
        ((jsonStr r.categ_id).data ++ (",\"active\":".data ++
        ((jsonVal r.active).data ++ (",\"default_code\":".data ++
        ((jsonStr r.default_code).data ++ (",\"hugo_slug\":".data ++
        ((jsonStr r.hugo_slug).data ++ (['\x7d'] ++ rest)))))))))))))) := by
    simp only [jsonOdooRec, strData_append, List.append_assoc]
  rw [hassoc]
  unfold parseJOdooRec
  rw [expectLit_append]
  dsimp only
  rw [parseJVal_jsonVal r.name _ h1 (nb_list_price _)]
  dsimp only
  rw [expectLit_append]
  dsimp only
  rw [parseNum_renderRat r.list_price _ h2 (hnd_description _)]
  dsimp only
  rw [expectLit_append]
  dsimp only
  rw [parseJVal_jsonVal r.description _ h3 (nb_categ_id _)]
  dsimp only
  rw [expectLit_append]
  dsimp only
  rw [parseJStr_jsonStr r.categ_id (safeStr_no_mem _ h4 '"' (by decide))]
  dsimp only
  rw [expectLit_append]
  dsimp only
  rw [parseJVal_jsonVal r.active _ h5 (nb_default_code _)]
  dsimp only
  rw [expectLit_append]
  dsimp only
  rw [parseJStr_jsonStr r.default_code (safeStr_no_mem _ h6 '"' (by decide))]
  dsimp only
  rw [expectLit_append]
  dsimp only
  rw [parseJStr_jsonStr r.hugo_slug (safeStr_no_mem _ h7 '"' (by decide))]
  dsimp only
  rw [expectLit_append]
  rfl

theorem nlData_price : ("\n    price: " : String).data = '\n' :: "    price: ".data := rfl

theorem nlData_list_price :
    ("\n    list_price: " : String).data = '\n' :: "    list_price: ".data := rfl

theorem nlData_description :
    ("\n    description: " : String).data = '\n' :: "    description: ".data := rfl

theorem nlData_category :
    ("\n    category: " : String).data = '\n' :: "    category: ".data := rfl

theorem nlData_categ_id :
    ("\n    categ_id: " : String).data = '\n' :: "    categ_id: ".data := rfl

theorem nlData_available :
    ("\n    available: " : String).data = '\n' :: "    available: ".data := rfl

theorem nlData_active :
    ("\n    active: " : String).data = '\n' :: "    active: ".data := rfl

theorem nlData_sku : ("\n    sku: " : String).data = '\n' :: "    sku: ".data := rfl

theorem nlData_default_code :
    ("\n    default_code: " : String).data = '\n' :: "    default_code: ".data := rfl

theorem nlData_hugo_slug :
    ("\n    hugo_slug: " : String).data = '\n' :: "    hugo_slug: ".data := rfl

theorem nlData_end : ("\n" : String).data = '\n' :: [] := rfl

theorem parseYField_append (label v rest : List Char) (hv : '\n' ∉ v) :
    parseYField label (label ++ (v ++ '\n' :: rest)) = some (v, rest) := by
  unfold parseYField
  rw [expectLit_append]
  exact splitAtChar_append '\n' v rest hv

theorem parseNumFull_renderRat (q : Rat) (hq : IsDecimalB q = true) :
    parseNumFull ((renderRat q).data) = some (.dec q) := by
  have h := parseNum_renderRat q [] hq rfl
  rw [List.append_nil] at h
  unfold parseNumFull
  rw [h]

theorem parseYLoyRec_yamlLoyRec (r : LoyverseRecord) (rest : List Char)
    (hsafe : safeLoyRecB r = true) :
    parseYLoyRec ((yamlLoyRec r).data ++ rest) = some (r, rest) := by
  obtain ⟨h1, h2, h3, h4, h5, h6, h7⟩ := safeLoyRecB_spec r hsafe
  have hassoc : (yamlLoyRec r).data ++ rest =
      "    name: ".data ++ ((yamlVal r.name).data ++ ('\n' ::
        ("    price: ".data ++ ((renderRat r.price).data ++ ('\n' ::
        ("    description: ".data ++ ((yamlVal r.description).data ++ ('\n' ::
        ("    category: ".data ++ (r.category.data ++ ('\n' ::
        ("    available: ".data ++ ((yamlVal r.available).data ++ ('\n' ::
        ("    sku: ".data ++ (r.sku.data ++ ('\n' ::
        ("    hugo_slug: ".data ++ (r.hugo_slug.data ++ ('\n' ::
        rest)))))))))))))))))))) := by
    simp only [yamlLoyRec, strData_append, List.append_assoc, nlData_price,
      nlData_description, nlData_category, nlData_available, nlData_sku,
      nlData_hugo_slug, nlData_end, List.cons_append, List.nil_append]
  rw [hassoc]
  unfold parseYLoyRec
  rw [parseYField_append _ _ _ (yamlVal_no_newline r.name h1)]
  dsimp only
  rw [parseYField_append _ _ _ (renderRat_no_newline r.price)]
  dsimp only
  rw [parseYField_append _ _ _ (yamlVal_no_newline r.description h3)]
  dsimp only
  rw [parseYField_append _ _ _ (safeStr_no_mem r.category h4 '\n' (by decide))]
  dsimp only
  rw [parseYField_append _ _ _ (yamlVal_no_newline r.available h5)]
  dsimp only
  rw [parseYField_append _ _ _ (safeStr_no_mem r.sku h6 '\n' (by decide))]
  dsimp only
  rw [parseYField_append _ _ _ (safeStr_no_mem r.hugo_slug h7 '\n' (by decide))]
  dsimp only
  rw [parseNumFull_renderRat r.price h2]
  dsimp only
  rw [yamlScalar_yamlVal r.name h1, yamlScalar_yamlVal r.description h3,
    yamlScalar_yamlVal r.available h5]
  rfl

theorem parseYOdooRec_yamlOdooRec (r : OdooRecord) (rest : List Char)
    (hsafe : safeOdooRecB r = true) :
    parseYOdooRec ((yamlOdooRec r).data ++ rest) = some (r, rest) := by
  obtain ⟨h1, h2, h3, h4, h5, h6, h7⟩ := safeOdooRecB_spec r hsafe
  have hassoc : (yamlOdooRec r).data ++ rest =
      "    name: ".data ++ ((yamlVal r.name).data ++ ('\n' ::
        ("    list_price: ".data ++ ((renderRat r.list_price).data ++ ('\n' ::
        ("    description: ".data ++ ((yamlVal r.description).data ++ ('\n' ::
        ("    categ_id: ".data ++ (r.categ_id.data ++ ('\n' ::
        ("    active: ".data ++ ((yamlVal r.active).data ++ ('\n' ::
        ("    default_code: ".data ++ (r.default_code.data ++ ('\n' ::
        ("    hugo_slug: ".data ++ (r.hugo_slug.data ++ ('\n' ::
        rest)))))))))))))))))))) := by
    simp only [yamlOdooRec, strData_append, List.append_assoc, nlData_list_price,
      nlData_description, nlData_categ_id, nlData_active, nlData_default_code,
      nlData_hugo_slug, nlData_end, List.cons_append, List.nil_append]
  rw [hassoc]
  unfold parseYOdooRec
  rw [parseYField_append _ _ _ (yamlVal_no_newline r.name h1)]
  dsimp only
  rw [parseYField_append _ _ _ (renderRat_no_newline r.list_price)]
  dsimp only
  rw [parseYField_append _ _ _ (yamlVal_no_newline r.description h3)]
  dsimp only
  rw [parseYField_append _ _ _ (safeStr_no_mem r.categ_id h4 '\n' (by decide))]
  dsimp only
  rw [parseYField_append _ _ _ (yamlVal_no_newline r.active h5)]
  dsimp only
  rw [parseYField_append _ _ _ (safeStr_no_mem r.default_code h6 '\n' (by decide))]
  dsimp only
  rw [parseYField_append _ _ _ (safeStr_no_mem r.hugo_slug h7 '\n' (by decide))]
  dsimp only
  rw [parseNumFull_renderRat r.list_price h2]
  dsimp only
  rw [yamlScalar_yamlVal r.name h1, yamlScalar_yamlVal r.description h3,
    yamlScalar_yamlVal r.active h5]
  rfl

theorem commaData : ("," : String).data = [','] := rfl

theorem colonData : (":" : String).data = [':'] := rfl

theorem quoteData : ("\"" : String).data = ['"'] := rfl

theorem braceOpenData : ("\x7b" : String).data = ['\x7b'] := rfl

theorem braceCloseData : ("\x7d" : String).data = ['\x7d'] := rfl

theorem expectLit_colon : ∀ X : List Char, expectLit [':'] (':' :: X) = some X :=
  fun _ => rfl

theorem parseJStr_decomp (k : String) (hq : '"' ∉ k.data) (X : List Char) :
    parseJStr ('"' :: (k.data ++ ('"' :: X))) = some (k, X) := by
  have h := parseJStr_jsonStr k hq X
  have hd : (jsonStr k).data ++ X = '"' :: (k.data ++ ('"' :: X)) := by
    simp [jsonStr, strData_append]
  rw [hd] at h
  exact h

theorem parseJTableRest_comma {ρ : Type} (pr : List Char → Option (ρ × List Char))
    (f : Nat) (cs1 : List Char) :
    parseJTableRest pr (f + 1) (',' :: cs1) =
      (match parseJStr cs1 with
      | none => none
      | some (k, cs2) =>
      match expectLit [':'] cs2 with
      | none => none
      | some cs3 =>
      match pr cs3 with
      | none => none
      | some (r, cs4) =>
      match parseJTableRest pr f cs4 with
      | none => none
      | some (t, cs5) => some ((k, r) :: t, cs5)) := rfl

theorem jsonTableRest_length {ρ : Type} (dr : ρ → String) (es : List (String × ρ)) :
    es.length ≤ ((jsonTableRest dr es).data).length := by
  induction es with
  | nil => simp [jsonTableRest]
  | cons p t ih =>
    rcases p with ⟨k, r⟩
    simp only [jsonTableRest, strData_append, List.length_append, List.length_cons]
    omega

theorem parseJTableRest_roundtrip {ρ : Type} (dr : ρ → String)
    (pr : List Char → Option (ρ × List Char)) (es : List (String × ρ))
    (hq : ∀ p ∈ es, '"' ∉ (Prod.fst p).data)
    (hrec : ∀ p ∈ es, ∀ X : List Char,
      pr ((dr (Prod.snd p)).data ++ X) = some (Prod.snd p, X)) :
    ∀ (rest : List Char) (f : Nat), es.length + 1 ≤ f →
      parseJTableRest pr f ((jsonTableRest dr es).data ++ rest) = some (es, rest) := by
  induction es with
  | nil =>
    intro rest f hf
    obtain ⟨g, rfl⟩ : ∃ g, f = g + 1 := ⟨f - 1, by omega⟩
    rfl
  | cons p t ih =>
    intro rest f hf
    obtain ⟨g, rfl⟩ : ∃ g, f = g + 1 := ⟨f - 1, by omega⟩
    rcases p with ⟨k, r⟩
    have hassoc : (jsonTableRest dr ((k, r) :: t)).data ++ rest =
        ',' :: ((jsonStr k).data ++ (':' :: ((dr r).data ++
          ((jsonTableRest dr t).data ++ rest)))) := by
      simp only [jsonTableRest, strData_append, List.append_assoc, commaData,
        colonData, List.cons_append, List.nil_append]
    rw [hassoc, parseJTableRest_comma]
    rw [parseJStr_jsonStr k (hq (k, r) (by simp))]
    dsimp only
    rw [expectLit_colon]
    dsimp only
    rw [hrec (k, r) (by simp)]
    dsimp only
    rw [ih (fun p hp => hq p (by simp [hp])) (fun p hp X => hrec p (by simp [hp]) X)
      rest g (by simpa using Nat.le_of_succ_le_succ hf)]

theorem parseJTable_quote {ρ : Type} (pr : List Char → Option (ρ × List Char))
    (X : List Char) :
    parseJTable pr ('\x7b' :: '"' :: X) =
      (match parseJStr ('"' :: X) with
      | none => none
      | some (k, cs2) =>
      match expectLit [':'] cs2 with
      | none => none
      | some cs3 =>
      match pr cs3 with
      | none => none
      | some (r, cs4) =>
      match parseJTableRest pr (cs4.length + 1) cs4 with
      | none => none
      | some (t, cs5) => some ((k, r) :: t, cs5)) := rfl

theorem parseJTable_roundtrip {ρ : Type} (dr : ρ → String)
    (pr : List Char → Option (ρ × List Char)) (es : List (String × ρ))
    (hq : ∀ p ∈ es, '"' ∉ (Prod.fst p).data)
    (hrec : ∀ p ∈ es, ∀ X : List Char,
      pr ((dr (Prod.snd p)).data ++ X) = some (Prod.snd p, X))
    (rest : List Char) :
    parseJTable pr ((jsonTable dr es).data ++ rest) = some (es, rest) := by
  cases es with
  | nil => rfl
  | cons p t =>
    rcases p with ⟨k, r⟩
    have hassoc : (jsonTable dr ((k, r) :: t)).data ++ rest =
        '\x7b' :: '"' :: (k.data ++ ('"' :: (':' :: ((dr r).data ++
          ((jsonTableRest dr t).data ++ rest))))) := by
      simp only [jsonTable, jsonStr, strData_append, List.append_assoc,
        braceOpenData, colonData, quoteData, List.cons_append, List.nil_append]
    rw [hassoc, parseJTable_quote]
    rw [parseJStr_decomp k (hq (k, r) (by simp))]
    dsimp only
    rw [expectLit_colon]
    dsimp only
    rw [hrec (k, r) (by simp)]
    dsimp only
    rw [parseJTableRest_roundtrip dr pr t (fun p hp => hq p (by simp [hp]))
      (fun p hp X => hrec p (by simp [hp]) X) rest _
      (by
        have hlen := jsonTableRest_length dr t
        simp only [List.length_append]
        omega)]

theorem safeTableB_spec (t : PosItems) (h : safeTableB t = true) :
    (∀ p ∈ t.1, safeStrB (Prod.fst p) = true ∧ safeLoyRecB (Prod.snd p) = true) ∧
    (∀ p ∈ t.2, safeStrB (Prod.fst p) = true ∧ safeOdooRecB (Prod.snd p) = true) := by
  simp only [safeTableB, Bool.and_eq_true, List.all_eq_true] at h
  exact ⟨fun p hp => h.1 p hp, fun p hp => h.2 p hp⟩

theorem parseJsonPos_roundtrip (t : PosItems) (hsafe : safeTableB t = true)
    (rest : List Char) :
    parseJsonPos ((jsonDumpPos t).data ++ rest) = some (t, rest) := by
  obtain ⟨hloy, hodo⟩ := safeTableB_spec t hsafe
  have hassoc : (jsonDumpPos t).data ++ rest =
      "\x7b\"loyverse\":".data ++ ((jsonTable jsonLoyRec t.1).data ++
        (",\"odoo\":".data ++ ((jsonTable jsonOdooRec t.2).data ++
        (['\x7d'] ++ rest)))) := by
    simp only [jsonDumpPos, strData_append, List.append_assoc, braceCloseData]
  rw [hassoc]
  unfold parseJsonPos
  rw [expectLit_append]
  dsimp only
  rw [parseJTable_roundtrip jsonLoyRec parseJLoyRec t.1
    (fun p hp => safeStr_no_mem _ (hloy p hp).1 '"' (by decide))
    (fun p hp X => parseJLoyRec_jsonLoyRec _ X (hloy p hp).2) _]
  dsimp only
  rw [expectLit_append]
  dsimp only
  rw [parseJTable_roundtrip jsonOdooRec parseJOdooRec t.2
    (fun p hp => safeStr_no_mem _ (hodo p hp).1 '"' (by decide))
    (fun p hp X => parseJOdooRec_jsonOdooRec _ X (hodo p hp).2) _]
  dsimp only
  rw [expectLit_append]

theorem twoSpaceData : ("  " : String).data = ' ' :: ' ' :: [] := rfl

theorem colonNlData : (":\n" : String).data = ':' :: '\n' :: [] := rfl

theorem emptyData : ("" : String).data = [] := rfl

theorem expectLit_twoSpace : ∀ X : List Char,
    expectLit "  ".data (' ' :: ' ' :: X) = some X := fun _ => rfl

theorem expectLit_nl : ∀ X : List Char, expectLit ['\n'] ('\n' :: X) = some X :=
  fun _ => rfl

theorem parseYEntries_space {ρ : Type} (pr : List Char → Option (ρ × List Char))
    (g : Nat) (Y : List Char) :
    parseYEntries pr (g + 1) (' ' :: Y) =
      (match expectLit "  ".data (' ' :: Y) with
      | none => none
      | some cs1 =>
      match splitAtChar ':' cs1 with
      | none => none
      | some (k, cs2) =>
      match expectLit ['\n'] cs2 with
      | none => none
      | some cs3 =>
      match pr cs3 with
      | none => none
      | some (r, cs4) =>
      match parseYEntries pr g cs4 with
      | none => none
      | some (t, cs5) => some ((⟨k⟩, r) :: t, cs5)) := rfl

theorem yamlEntries_length {ρ : Type} (dr : ρ → String) (es : List (String × ρ)) :
    es.length ≤ ((yamlEntries dr es).data).length := by
  induction es with
  | nil => simp [yamlEntries, emptyData]
  | cons p t ih =>
    rcases p with ⟨k, r⟩
    simp only [yamlEntries, strData_append, List.length_append, List.length_cons,
      twoSpaceData]
    omega

theorem parseYEntries_roundtrip {ρ : Type} (dr : ρ → String)
    (pr : List Char → Option (ρ × List Char)) (es : List (String × ρ))
    (hc : ∀ p ∈ es, ':' ∉ (Prod.fst p).data)
    (hrec : ∀ p ∈ es, ∀ X : List Char,
      pr ((dr (Prod.snd p)).data ++ X) = some (Prod.snd p, X))
    (rest : List Char)
    (hstop : ∀ g : Nat, parseYEntries pr (g + 1) rest = some ([], rest)) :
    ∀ f : Nat, es.length + 1 ≤ f →
      parseYEntries pr f ((yamlEntries dr es).data ++ rest) = some (es, rest) := by
  induction es with
  | nil =>
    intro f hf
    obtain ⟨g, rfl⟩ : ∃ g, f = g + 1 := ⟨f - 1, by omega⟩
    have hd : (yamlEntries dr ([] : List (String × ρ))).data ++ rest = rest := by
      simp [yamlEntries, emptyData]
    rw [hd]
    exact hstop g
  | cons p t ih =>
    intro f hf
    obtain ⟨g, rfl⟩ : ∃ g, f = g + 1 := ⟨f - 1, by omega⟩
    rcases p with ⟨k, r⟩
    have hassoc : (yamlEntries dr ((k, r) :: t)).data ++ rest =
        ' ' :: ' ' :: (k.data ++ (':' :: ('\n' :: ((dr r).data ++
          ((yamlEntries dr t).data ++ rest))))) := by
      simp only [yamlEntries, strData_append, List.append_assoc, twoSpaceData,
        colonNlData, List.cons_append, List.nil_append]
    rw [hassoc, parseYEntries_space]
    rw [expectLit_twoSpace]
    dsimp only
    rw [splitAtChar_append ':' k.data _ (hc (k, r) (by simp))]
    dsimp only
    rw [expectLit_nl]
    dsimp only
    rw [hrec (k, r) (by simp)]
    dsimp only
    rw [ih (fun p hp => hc p (by simp [hp])) (fun p hp X => hrec p (by simp [hp]) X)
      g (by simpa using Nat.le_of_succ_le_succ hf)]

theorem parseYamlPos_roundtrip (t : PosItems) (hsafe : safeTableB t = true) :
    parseYamlPos ((yamlDumpPos t).data) = some (t, []) := by
  obtain ⟨hloy, hodo⟩ := safeTableB_spec t hsafe
  have hassoc : (yamlDumpPos t).data =
      "loyverse:\n".data ++ ((yamlEntries yamlLoyRec t.1).data ++
        ("odoo:\n".data ++ ((yamlEntries yamlOdooRec t.2).data ++ []))) := by
    simp only [yamlDumpPos, strData_append, List.append_assoc, List.append_nil]
  have hf1 : t.1.length + 1 ≤
      ((yamlEntries yamlLoyRec t.1).data ++
        ("odoo:\n".data ++ ((yamlEntries yamlOdooRec t.2).data ++ []))).length + 1 := by
    have h := yamlEntries_length yamlLoyRec t.1
    simp only [List.length_append]
    omega
  have hf2 : t.2.length + 1 ≤ ((yamlEntries yamlOdooRec t.2).data ++ []).length + 1 := by
    have h := yamlEntries_length yamlOdooRec t.2
    simp only [List.length_append]
    omega
  rw [hassoc]
  unfold parseYamlPos
  rw [expectLit_append]
  dsimp only
  rw [parseYEntries_roundtrip yamlLoyRec parseYLoyRec t.1
    (fun p hp => safeStr_no_mem _ (hloy p hp).1 ':' (by decide))
    (fun p hp X => parseYLoyRec_yamlLoyRec _ X (hloy p hp).2)
    ("odoo:\n".data ++ ((yamlEntries yamlOdooRec t.2).data ++ []))
    (fun g => by rfl) _ hf1]
  dsimp only
  rw [expectLit_append]
  dsimp only
  rw [parseYEntries_roundtrip yamlOdooRec parseYOdooRec t.2
    (fun p hp => safeStr_no_mem _ (hodo p hp).1 ':' (by decide))
    (fun p hp X => parseYOdooRec_yamlOdooRec _ X (hodo p hp).2)
    [] (fun g => rfl) _ hf2]

/-- Claim C8: for every in-memory table pair of safe records, serializing
to the YAML dump and to the JSON dump and parsing each back yields the
same table, so the data obtained from the two formats are equal. -/
theorem claim8_round_trip (t : PosItems) (hsafe : safeTableB t = true) :
    parseJsonPos ((jsonDumpPos t).data) = some (t, []) ∧
    parseYamlPos ((yamlDumpPos t).data) = some (t, []) ∧
    (parseJsonPos ((jsonDumpPos t).data)).map Prod.fst =
      (parseYamlPos ((yamlDumpPos t).data)).map Prod.fst := by
  have hj := parseJsonPos_roundtrip t hsafe []
  rw [List.append_nil] at hj
  have hy := parseYamlPos_roundtrip t hsafe
  exact ⟨hj, hy, by rw [hj, hy]⟩

/-- Witness for C8 on a concrete one-item table. -/
theorem claim8_witness :
    safeTableB wTable = true ∧
    (parseJsonPos ((jsonDumpPos wTable).data) = some (wTable, []) ∧
     parseYamlPos ((yamlDumpPos wTable).data) = some (wTable, []) ∧
     (parseJsonPos ((jsonDumpPos wTable).data)).map Prod.fst =
       (parseYamlPos ((yamlDumpPos wTable).data)).map Prod.fst) := by
  have hw : safeTableB wTable = true := by
    simp +decide [safeTableB, safeLoyRecB, safeOdooRecB, safeValueB, safeStrB,
      safeChar, plainFirst, IsDecimalB, wTable]
    norm_num
  exact ⟨hw, claim8_round_trip wTable hw⟩
